import Mathlib

/-!
# Web-Crawler: the crawl engine of `main.go`

A shallow embedding of `main.go` (`Crawler`, `NewCrawler`, `Crawl`, `visitPage`,
`extractLinks`, `resolveURL`, `isSameDomain`) together with the parts of the Go
standard library the program calls (`strings.HasSuffix`, `net/url`'s `Parse` and
`(*URL).String`).

Conventions.
* A Go `string` is a Lean `String`; one character stands for one byte, so the
  model of `net/url` (written after the library as of Go 1.19 and later) is
  exact on ASCII text.  The examples below are ASCII; the general statements
  about the resolver use only what `Parse` returned, not how it got there.
* `http.Get` is the environment: a function from the requested URL to either a
  transport error (`none`) or a response.  A response body is given by the
  sequence of tokens the HTML tokenizer yields for it.
* `visitPage` is recursive without a bound in Go; the embedding takes a fuel
  argument bounding the recursion depth.  A call that reaches the bound ends as
  `outOfFuel` and keeps the state reached so far, so that properties of every
  moment of a run can be stated even for runs that never return.
* Namespace `Spec` holds the resolver, the links of a page and the link graph
  written after the wording of spec.md (§4.1, §6); the code is compared with
  them in `resolveURL_iff_accepts` and `mem_extractLinks_iff`.
-/

namespace WebCrawler

/-! ## Package `strings` -/

namespace strings

/-- Go `strings.HasSuffix(s, suffix)`. -/
def HasSuffix (s suffix : String) : Bool :=
  suffix.data.isSuffixOf s.data

/-- Splitting at the first occurrence of a one-byte separator, as
`strings.Cut(s, sep)` does: the text before it, the text after it, and whether
the separator was found. -/
def cutChars (sep : Char) : List Char → List Char × List Char × Bool
  | [] => ([], [], false)
  | c :: cs =>
    if c = sep then ([], cs, true)
    else
      let r := cutChars sep cs
      (c :: r.1, r.2.1, r.2.2)

/-- Splitting at the last occurrence of a one-byte separator (the index that
`strings.LastIndex(s, sep)` returns): `none` when the separator is absent,
otherwise the text before and the text after it. -/
def cutLastChars (sep : Char) (s : List Char) : Option (List Char × List Char) :=
  let r := cutChars sep s.reverse
  if r.2.2 then some (r.2.1.reverse, r.1.reverse) else none

/-- Splitting in front of the first occurrence of a separator sequence (the
index that `strings.Index(s, sep)` returns): `none` when it does not occur,
otherwise the text before it and the text from it on. -/
def splitAtSub (sep : List Char) : List Char → Option (List Char × List Char)
  | [] => if sep.isEmpty then some ([], []) else none
  | c :: cs =>
    if sep.isPrefixOf (c :: cs) then some ([], c :: cs)
    else (splitAtSub sep cs).map (fun r => (c :: r.1, r.2))

/-- ASCII lower-casing of one byte (what `strings.ToLower` does on the bytes a
scheme may hold). -/
def lowerChar (c : Char) : Char :=
  if 65 ≤ c.toNat ∧ c.toNat ≤ 90 then Char.ofNat (c.toNat + 32) else c

end strings

/-! ## Package `net/url` -/

namespace url

/-- Go `url.Userinfo`. -/
structure Userinfo where
  username : String := ""
  password : String := ""
  passwordSet : Bool := false
deriving DecidableEq

/-- Go `url.URL`. -/
structure URL where
  Scheme : String := ""
  Opaque : String := ""
  User : Option Userinfo := none
  Host : String := ""
  Path : String := ""
  RawPath : String := ""
  OmitHost : Bool := false
  ForceQuery : Bool := false
  RawQuery : String := ""
  Fragment : String := ""
  RawFragment : String := ""
deriving DecidableEq

/-- Go `url.encoding`: the part of a URL being escaped or unescaped. -/
inductive encoding where
  | encodePath
  | encodePathSegment
  | encodeHost
  | encodeZone
  | encodeUserPassword
  | encodeQueryComponent
  | encodeFragment
deriving DecidableEq

/-- The byte `c` is one of the bytes of `s`. -/
def oneOf (c : Char) (s : String) : Bool :=
  s.data.contains c

/-- The test `lo <= c && c <= hi` on bytes. -/
def between (lo hi c : Char) : Bool :=
  decide (lo.toNat ≤ c.toNat ∧ c.toNat ≤ hi.toNat)

/-- Go `ishex`. -/
def ishex (c : Char) : Bool :=
  between '0' '9' c || between 'a' 'f' c || between 'A' 'F' c

/-- Go `unhex`. -/
def unhex (c : Char) : Nat :=
  if between '0' '9' c then c.toNat - 48
  else if between 'a' 'f' c then c.toNat - 97 + 10
  else if between 'A' 'F' c then c.toNat - 65 + 10
  else 0

/-- The digit of Go's `upperhex` table at index `n`. -/
def upperhex (n : Nat) : Char :=
  "0123456789ABCDEF".data.getD n '0'

/-- Go `shouldEscape`: whether byte `c` must be written as `%XX` in the given
part of a URL. -/
def shouldEscape (c : Char) (mode : encoding) : Bool :=
  if between 'a' 'z' c || between 'A' 'Z' c || between '0' '9' c then false
  else if (mode = .encodeHost || mode = .encodeZone) && oneOf c "!$&'()*+,;=:[]<>\"" then false
  else if oneOf c "-_.~" then false
  else if oneOf c "$&+,/:;=?@" then
    match mode with
    | .encodePath => c = '?'
    | .encodePathSegment => c = '/' || c = ';' || c = ',' || c = '?'
    | .encodeUserPassword => c = '@' || c = '/' || c = '?' || c = ':'
    | .encodeQueryComponent => true
    | .encodeFragment => false
    | _ => true
  else if mode = .encodeFragment && oneOf c "!()*" then false
  else true

/-- The three bytes `%XX` written for byte `c`. -/
def pctEncode (c : Char) : List Char :=
  ['%', upperhex (c.toNat / 16 % 16), upperhex (c.toNat % 16)]

/-- Go `escape` on the bytes of a string. -/
def escapeChars (mode : encoding) : List Char → List Char
  | [] => []
  | c :: cs =>
    (if shouldEscape c mode then
      (if c = ' ' ∧ mode = .encodeQueryComponent then ['+'] else pctEncode c)
    else [c]) ++ escapeChars mode cs

/-- Go `escape(s, mode)`. -/
def escape (s : String) (mode : encoding) : String :=
  ⟨escapeChars mode s.data⟩

/-- Go `unescape` on the bytes of a string; `none` is an `EscapeError` or an
`InvalidHostError`. -/
def unescapeChars (mode : encoding) : List Char → Option (List Char)
  | [] => some []
  | c :: rest =>
    if c = '%' then
      match rest with
      | a :: b :: rest2 =>
        if !ishex a || !ishex b then none
        else if mode = .encodeHost && unhex a < 8 && !(a = '2' && b = '5') then none
        else if mode = .encodeZone && !(a = '2' && b = '5') && unhex a * 16 + unhex b ≠ 32
            && shouldEscape (Char.ofNat (unhex a * 16 + unhex b)) .encodeHost then none
        else (unescapeChars mode rest2).map (fun t => Char.ofNat (unhex a * 16 + unhex b) :: t)
      | _ => none
    else if c = '+' then
      (unescapeChars mode rest).map
        (fun t => (if mode = .encodeQueryComponent then ' ' else '+') :: t)
    else if (mode = .encodeHost || mode = .encodeZone) && c.toNat < 128
        && shouldEscape c .encodeHost then none
    else (unescapeChars mode rest).map (fun t => c :: t)

/-- Go `unescape(s, mode)`. -/
def unescape (s : String) (mode : encoding) : Option String :=
  (unescapeChars mode s.data).map String.mk

/-- Go `validEncoded`. -/
def validEncoded (s : String) (mode : encoding) : Bool :=
  s.data.all (fun c => oneOf c "!$&'()*+,;=:@[]%" || !shouldEscape c mode)

/-- Go `stringContainsCTLByte`. -/
def stringContainsCTLByte (s : String) : Bool :=
  s.data.any (fun c => decide (c.toNat < 32) || decide (c.toNat = 127))

/-- The loop of Go `getScheme`: `first` is `i == 0`, `acc` is `rawURL[:i]`. -/
def getSchemeLoop (rawURL : List Char) :
    Bool → List Char → List Char → Option (List Char × List Char)
  | _, _, [] => some ([], rawURL)
  | first, acc, c :: cs =>
    if between 'a' 'z' c || between 'A' 'Z' c then getSchemeLoop rawURL false (acc ++ [c]) cs
    else if between '0' '9' c || c = '+' || c = '-' || c = '.' then
      if first then some ([], rawURL) else getSchemeLoop rawURL false (acc ++ [c]) cs
    else if c = ':' then
      if first then none else some (acc, cs)
    else some ([], rawURL)

/-- Go `getScheme`: the scheme and the rest after the colon; `none` is the
error "missing protocol scheme". -/
def getScheme (rawURL : List Char) : Option (List Char × List Char) :=
  getSchemeLoop rawURL true [] rawURL

/-- Go `validOptionalPort`. -/
def validOptionalPort (port : List Char) : Bool :=
  match port with
  | [] => true
  | c :: ds => c = ':' && ds.all (fun b => between '0' '9' b)

/-- Go `validUserinfo`. -/
def validUserinfo (s : List Char) : Bool :=
  s.all (fun r => between 'A' 'Z' r || between 'a' 'z' r || between '0' '9' r
    || oneOf r "-._:~!$&'()*+,;=%@")

/-- Go `parseHost`. -/
def parseHost (host : List Char) : Option (List Char) :=
  if host.head? = some '[' then
    match strings.cutLastChars ']' host with
    | none => none
    | some (inner, colonPort) =>
      if !validOptionalPort colonPort then none
      else
        match strings.splitAtSub ['%', '2', '5'] inner with
        | some (h1, zone) =>
          match unescapeChars .encodeHost h1, unescapeChars .encodeZone zone,
            unescapeChars .encodeHost (']' :: colonPort) with
          | some host1, some host2, some host3 => some (host1 ++ host2 ++ host3)
          | _, _, _ => none
        | none => unescapeChars .encodeHost host
  else
    match strings.cutLastChars ':' host with
    | some (_, port) =>
      if !validOptionalPort (':' :: port) then none else unescapeChars .encodeHost host
    | none => unescapeChars .encodeHost host

/-- Go `parseAuthority`. -/
def parseAuthority (authority : List Char) : Option (Option Userinfo × List Char) :=
  match strings.cutLastChars '@' authority with
  | none => (parseHost authority).map (fun host => (none, host))
  | some (userinfo, hostPart) =>
    match parseHost hostPart with
    | none => none
    | some host =>
      if !validUserinfo userinfo then none
      else if !userinfo.contains ':' then
        (unescapeChars .encodeUserPassword userinfo).map
          (fun u => (some { username := ⟨u⟩ }, host))
      else
        let r := strings.cutChars ':' userinfo
        match unescapeChars .encodeUserPassword r.1, unescapeChars .encodeUserPassword r.2.1 with
        | some username, some password =>
          some (some { username := ⟨username⟩, password := ⟨password⟩, passwordSet := true }, host)
        | _, _ => none

/-- Go `(*URL).setPath`. -/
def URL.setPath (u : URL) (p : String) : Option URL :=
  match unescape p .encodePath with
  | none => none
  | some path =>
    some { u with Path := path, RawPath := if p = escape path .encodePath then "" else p }

/-- Go `(*URL).setFragment`. -/
def URL.setFragment (u : URL) (f : String) : Option URL :=
  match unescape f .encodeFragment with
  | none => none
  | some frag =>
    some { u with
      Fragment := frag, RawFragment := if f = escape frag .encodeFragment then "" else f }

/-- The second half of Go `parse(rawURL, viaRequest)`: `u` holds the scheme
and the query already split off, `rest` is what is left of `rawURL` between
them. -/
def parseRest (u : URL) (rest : List Char) (viaRequest : Bool) : Option URL :=
  if rest.head? ≠ some '/' ∧ u.Scheme ≠ "" then some { u with Opaque := ⟨rest⟩ }
  else if rest.head? ≠ some '/' ∧ viaRequest = true then none
  else if rest.head? ≠ some '/' ∧ (strings.cutChars '/' rest).1.contains ':' then none
  else if (u.Scheme ≠ "" ∨ (viaRequest = false ∧ (['/', '/', '/'].isPrefixOf rest) = false))
      ∧ ['/', '/'].isPrefixOf rest then
    match parseAuthority (strings.cutChars '/' (rest.drop 2)).1 with
    | none => none
    | some (user, host) =>
      URL.setPath { u with User := user, Host := ⟨host⟩ }
        ⟨if (strings.cutChars '/' (rest.drop 2)).2.2
          then '/' :: (strings.cutChars '/' (rest.drop 2)).2.1 else []⟩
  else if u.Scheme ≠ "" ∧ rest.head? = some '/' then
    URL.setPath { u with OmitHost := true } ⟨rest⟩
  else URL.setPath u ⟨rest⟩

/-- Go `parse(rawURL, viaRequest)`: a URL without its fragment. -/
def parse (rawURL : String) (viaRequest : Bool) : Option URL :=
  if stringContainsCTLByte rawURL then none
  else if rawURL = "" ∧ viaRequest = true then none
  else if rawURL = "*" then some { Path := "*" }
  else
    match getScheme rawURL.data with
    | none => none
    | some (scheme, rest) =>
      if rest.getLast? = some '?' ∧ rest.count '?' = 1 then
        parseRest { Scheme := ⟨scheme.map strings.lowerChar⟩, ForceQuery := true }
          rest.dropLast viaRequest
      else
        parseRest
          { Scheme := ⟨scheme.map strings.lowerChar⟩,
            RawQuery := ⟨(strings.cutChars '?' rest).2.1⟩ }
          (strings.cutChars '?' rest).1 viaRequest

/-- Go `url.Parse(rawURL)`; `none` stands for a non-nil error. -/
def Parse (rawURL : String) : Option URL :=
  let r := strings.cutChars '#' rawURL.data
  match parse ⟨r.1⟩ false with
  | none => none
  | some u => if r.2.1 = [] then some u else URL.setFragment u ⟨r.2.1⟩

/-- Go `(*Userinfo).String`. -/
def Userinfo.String (ui : Userinfo) : String :=
  escape ui.username .encodeUserPassword ++
    (if ui.passwordSet then ":" ++ escape ui.password .encodeUserPassword else "")

/-- Go `(*URL).EscapedPath`. -/
def URL.EscapedPath (u : URL) : String :=
  if u.RawPath ≠ "" ∧ validEncoded u.RawPath .encodePath
      ∧ unescape u.RawPath .encodePath = some u.Path then u.RawPath
  else if u.Path = "*" then "*"
  else escape u.Path .encodePath

/-- Go `(*URL).EscapedFragment`. -/
def URL.EscapedFragment (u : URL) : String :=
  if u.RawFragment ≠ "" ∧ validEncoded u.RawFragment .encodeFragment
      ∧ unescape u.RawFragment .encodeFragment = some u.Fragment then u.RawFragment
  else escape u.Fragment .encodeFragment

/-- The user information written by `(*URL).String`, with its `@`. -/
def URL.userString (u : URL) : String :=
  match u.User with
  | some ui => ui.String ++ "@"
  | none => ""

/-- The authority part written by `(*URL).String` when `Opaque` is empty:
`//`, the user information and the host. -/
def URL.authorityString (u : URL) : String :=
  if u.Scheme ≠ "" ∨ u.Host ≠ "" ∨ u.User ≠ none then
    if u.OmitHost ∧ u.Host = "" ∧ u.User = none then ""
    else
      (if u.Host ≠ "" ∨ u.Path ≠ "" ∨ u.User ≠ none then "//" else "") ++ u.userString ++
      (if u.Host ≠ "" then escape u.Host .encodeHost else "")
  else ""

/-- The part of `(*URL).String` between the scheme and the query when `Opaque`
is empty; `buf` is what has been written so far (the scheme and its colon). -/
def URL.hierString (u : URL) (buf : String) : String :=
  let buf1 := buf ++ u.authorityString
  let path := u.EscapedPath
  let buf2 := if path ≠ "" ∧ path.data.head? ≠ some '/' ∧ u.Host ≠ "" then buf1 ++ "/" else buf1
  let buf3 :=
    if buf2 = "" ∧ (strings.cutChars '/' path.data).1.contains ':' then buf2 ++ "./" else buf2
  buf3 ++ path

/-- The query written by `(*URL).String`, with its `?`. -/
def URL.queryString (u : URL) : String :=
  if u.ForceQuery ∨ u.RawQuery ≠ "" then "?" ++ u.RawQuery else ""

/-- The fragment written by `(*URL).String`, with its `#`. -/
def URL.fragmentString (u : URL) : String :=
  if u.Fragment ≠ "" then "#" ++ u.EscapedFragment else ""

/-- Go `(*URL).String`: the scheme, then the opaque part or else authority and
path, then the query, then the fragment. -/
def URL.String (u : URL) : String :=
  let buf := if u.Scheme ≠ "" then u.Scheme ++ ":" else ""
  (if u.Opaque ≠ "" then buf ++ u.Opaque else u.hierString buf) ++ u.queryString
    ++ u.fragmentString

end url

/-! ## Package `html` (golang.org/x/net/html): the tokens of a response body -/

namespace html

/-- Go `html.TokenType`. -/
inductive TokenType where
  | ErrorToken
  | TextToken
  | StartTagToken
  | EndTagToken
  | SelfClosingTagToken
  | CommentToken
  | DoctypeToken
deriving DecidableEq

/-- Go `html.Attribute`. -/
structure Attribute where
  Namespace : String := ""
  Key : String
  Val : String
deriving DecidableEq

/-- Go `html.Token`; `Typ` is its field `Type`, the value `tokenizer.Next()`
returned for it. -/
structure Token where
  Typ : TokenType
  Data : String := ""
  Attr : List Attribute := []
deriving DecidableEq

end html

/-! ## Package `net/http`: what `http.Get` returns -/

namespace http

/-- Go `http.StatusOK`. -/
def StatusOK : Nat := 200

/-- Go `http.Response`, reduced to the two fields the program reads.  `Body` is
the sequence of tokens that successive `tokenizer.Next()` calls yield on the
body; after the last one the tokenizer returns `ErrorToken` (end of input). -/
structure Response where
  StatusCode : Nat
  Body : List html.Token := []
deriving DecidableEq

end http

/-! ## `main.go` -/

/-- Go `Crawler`.  The map `visited` only ever receives the value `true`, so it
is given by the list of its keys, most recently added first; `c.visited[url]`
is membership in that list. -/
structure Crawler where
  baseURL : url.URL
  visited : List String := []
deriving DecidableEq

/-- Go `NewCrawler`; `none` stands for the returned error. -/
def NewCrawler (baseURL : String) : Option Crawler :=
  match url.Parse baseURL with
  | none => none
  | some u => some { baseURL := u, visited := [] }

/-- Go `(*Crawler).isSameDomain`. -/
def Crawler.isSameDomain (c : Crawler) (u : url.URL) : Bool :=
  u.Host = c.baseURL.Host || strings.HasSuffix u.Host ("." ++ c.baseURL.Host)

/-- The two assignments of `resolveURL` that fill in a missing scheme and a
missing host from the base URL. -/
def Crawler.inherit (c : Crawler) (u : url.URL) : url.URL :=
  let u1 := if u.Scheme = "" then { u with Scheme := c.baseURL.Scheme } else u
  if u1.Host = "" then { u1 with Host := c.baseURL.Host } else u1

/-- Go `(*Crawler).resolveURL`; the empty string is the "no link" result. -/
def Crawler.resolveURL (c : Crawler) (href : String) : String :=
  match url.Parse href with
  | none => ""
  | some u =>
    let u2 := c.inherit u
    if c.isSameDomain u2 then u2.String else ""

/-- The inner loop of `extractLinks` over the attributes of an `a` start tag:
the first `href` attribute is resolved, appended when non-empty, and the loop
breaks. -/
def Crawler.hrefLoop (c : Crawler) (links : List String) : List html.Attribute → List String
  | [] => links
  | attr :: attrs =>
    if attr.Key = "href" then
      let link := c.resolveURL attr.Val
      if link ≠ "" then links ++ [link] else links
    else c.hrefLoop links attrs

/-- The outer loop of `extractLinks`: `links` is the slice built so far. -/
def Crawler.extractLinksLoop (c : Crawler) (links : List String) :
    List html.Token → List String
  | [] => links
  | token :: rest =>
    if token.Typ = .ErrorToken then links
    else if token.Typ = .StartTagToken ∧ token.Data = "a" then
      c.extractLinksLoop (c.hrefLoop links token.Attr) rest
    else c.extractLinksLoop links rest

/-- Go `(*Crawler).extractLinks`. -/
def Crawler.extractLinks (c : Crawler) (body : List html.Token) : List String :=
  c.extractLinksLoop [] body

/-- The environment of a run: `http.Get` as a function of the requested URL,
`none` for a transport error. -/
abbrev Web := String → Option http.Response

/-- A crawler together with what it has done so far: `requests` lists the URLs
passed to `http.Get`, oldest first (each one right after its "Visiting:" line
was printed). -/
structure State where
  crawler : Crawler
  requests : List String := []
deriving DecidableEq

/-- The effect of `fmt.Println("Visiting:", url)` followed by `http.Get(url)`. -/
def State.request (s : State) (url : String) : State :=
  { s with requests := s.requests ++ [url] }

/-- The effect of `c.visited[url] = true`. -/
def State.mark (s : State) (url : String) : State :=
  { s with crawler := { s.crawler with visited := url :: s.crawler.visited } }

/-- How a call under a fuel bound ends: it returned, leaving state `s`, or the
bound was reached, `s` being the state at that moment. -/
inductive Outcome where
  | returned (s : State)
  | outOfFuel (s : State)
deriving DecidableEq

/-- The state a call ended in. -/
def Outcome.state : Outcome → State
  | .returned s => s
  | .outOfFuel s => s

/-- Whether the call returned. -/
def Outcome.finished : Outcome → Bool
  | .returned _ => true
  | .outOfFuel _ => false

/-- The loop `for _, link := range links { c.visitPage(link) }` of `visitPage`,
over the function `visit` that stands for the recursive call. -/
def visitLinks (visit : String → State → Outcome) : List String → State → Outcome
  | [], s => .returned s
  | link :: links, s =>
    match visit link s with
    | .returned s1 => visitLinks visit links s1
    | .outOfFuel s1 => .outOfFuel s1

/-- Go `(*Crawler).visitPage`.  `fuel` bounds the depth of the recursion, which
Go leaves unbounded.  The two log lines and the deferred `resp.Body.Close()`
change neither the crawler nor the requests and are left out. -/
def visitPage (get : Web) : Nat → String → State → Outcome
  | 0, _, s => .outOfFuel s
  | fuel + 1, url, s =>
    if s.crawler.visited.contains url then .returned s
    else
      let s1 := s.request url
      match get url with
      | none => .returned s1
      | some resp =>
        let s2 := s1.mark url
        if resp.StatusCode ≠ http.StatusOK then .returned s2
        else visitLinks (fun link acc => visitPage get fuel link acc)
          (s2.crawler.extractLinks resp.Body) s2

/-- Go `(*Crawler).Crawl`. -/
def Crawl (get : Web) (fuel : Nat) (c : Crawler) : Outcome :=
  visitPage get fuel c.baseURL.String { crawler := c, requests := [] }

/-- Go `main`, up to the call of `Crawl`: the crawler for `http://example.com`. -/
def mainCrawler : Option Crawler :=
  NewCrawler "http://example.com"

/-! ## The runs of `visitPage` as a relation

`Run get true links s s1` says that calling `visitPage` on each URL of `links`
in turn, starting in state `s`, returns and leaves state `s1`.
`Run get false links s s1` says that `s1` is a state on the way: the calls have
been followed up to the start of some `visitPage` call and no further. -/

/-- Big-step description of a sequence of `visitPage` calls, complete (`true`)
or stopped at the start of a call (`false`). -/
inductive Run (get : Web) : Bool → List String → State → State → Prop
  | done (s : State) : Run get true [] s s
  | stop (links : List String) (s : State) : Run get false links s s
  | seen {b : Bool} {url : String} {links : List String} {s s1 : State} :
      s.crawler.visited.contains url = true →
      Run get b links s s1 → Run get b (url :: links) s s1
  | failed {b : Bool} {url : String} {links : List String} {s s1 : State} :
      s.crawler.visited.contains url = false → get url = none →
      Run get b links (s.request url) s1 → Run get b (url :: links) s s1
  | notOK {b : Bool} {url : String} {links : List String} {s s1 : State}
      {resp : http.Response} :
      s.crawler.visited.contains url = false → get url = some resp →
      resp.StatusCode ≠ http.StatusOK →
      Run get b links ((s.request url).mark url) s1 → Run get b (url :: links) s s1
  | explored {b : Bool} {url : String} {links : List String} {s s1 s2 : State}
      {resp : http.Response} :
      s.crawler.visited.contains url = false → get url = some resp →
      resp.StatusCode = http.StatusOK →
      Run get true (((s.request url).mark url).crawler.extractLinks resp.Body)
        ((s.request url).mark url) s1 →
      Run get b links s1 s2 → Run get b (url :: links) s s2
  | inside {url : String} {links : List String} {s s1 : State} {resp : http.Response} :
      s.crawler.visited.contains url = false → get url = some resp →
      resp.StatusCode = http.StatusOK →
      Run get false (((s.request url).mark url).crawler.extractLinks resp.Body)
        ((s.request url).mark url) s1 →
      Run get false (url :: links) s s1

/-- The pages that link `v` leads to: the links extracted from `v` when its
fetch returns status OK, none otherwise. -/
def successors (get : Web) (c : Crawler) (v : String) : List String :=
  match get v with
  | none => []
  | some resp => if resp.StatusCode = http.StatusOK then c.extractLinks resp.Body else []

/-- Reachability in the link graph: from `seed`, following extracted links of
pages fetched with status OK. -/
inductive Reachable (get : Web) (c : Crawler) (seed : String) : String → Prop
  | seed : Reachable get c seed seed
  | link {v w : String} : Reachable get c seed v → w ∈ successors get c v →
      Reachable get c seed w

/-- The strings the resolver hands out as links: non-empty results of
`resolveURL`. -/
def Accepted (c : Crawler) (x : String) : Prop :=
  x ≠ "" ∧ ∃ href, c.resolveURL href = x

/-- The URLs of `U` not yet in the visited list `vis`. -/
def unvisited (U vis : List String) : Finset String :=
  U.toFinset.filter (fun u => u ∉ vis)

/-! ## The wording of the specification (spec.md §4.1 and §6) -/

namespace Spec

/-- Spec §4.1, same-domain membership in the spec's words: the host equals the
base host exactly, or it ends with a dot followed by the base host. -/
def SameDomain (baseHost host : String) : Prop :=
  host = baseHost ∨ ∃ pre : String, host = pre ++ "." ++ baseHost

/-- Spec §4.1, inheritance in the spec's words: a reference with no scheme
takes the scheme of the base, a reference with no host takes the host of the
base. -/
def inherit (base ref : url.URL) : url.URL :=
  { ref with
    Scheme := if ref.Scheme = "" then base.Scheme else ref.Scheme,
    Host := if ref.Host = "" then base.Host else ref.Host }

/-- Spec §4.1, `resolve(href, base)` yields `link`: the href parses, its host
after inheritance is in the same domain, and `link` is the string of the
resulting URL; the empty string counts as absent. -/
def Accepts (base : url.URL) (href link : String) : Prop :=
  link ≠ "" ∧ ∃ ref, url.Parse href = some ref ∧
    SameDomain base.Host (inherit base ref).Host ∧ link = (inherit base ref).String

/-- Spec §6, "whatever was successfully scanned before the error": the tokens
of a body in front of the first error token. -/
def scanned : List html.Token → List html.Token
  | [] => []
  | t :: ts => if t.Typ = .ErrorToken then [] else t :: scanned ts

/-- The `href` attribute of a tag: the first attribute with that key. -/
def firstHref : List html.Attribute → Option String
  | [] => none
  | a :: as => if a.Key = "href" then some a.Val else firstHref as

/-- Spec §6, `parseHrefs` in the spec's words: the `href` value of each anchor
element of the page, in document order.  An anchor element is an `a` tag,
whether written `<a ...>` or self-closing `<a ... />`. -/
def parseHrefs (body : List html.Token) : List String :=
  (scanned body).filterMap (fun t =>
    if t.Data = "a" ∧ (t.Typ = .StartTagToken ∨ t.Typ = .SelfClosingTagToken)
    then firstHref t.Attr else none)

/-- The hrefs of the anchors written as start tags `<a ...>` only. -/
def startTagHrefs (body : List html.Token) : List String :=
  (scanned body).filterMap (fun t =>
    if t.Typ = .StartTagToken ∧ t.Data = "a" then firstHref t.Attr else none)

/-- An edge of the link graph: page `v` is fetched with status OK and one of
its hrefs, as listed by `hrefs`, resolves to `w`. -/
def Link (hrefs : List html.Token → List String) (get : Web) (base : url.URL)
    (v w : String) : Prop :=
  ∃ resp, get v = some resp ∧ resp.StatusCode = http.StatusOK ∧
    ∃ href ∈ hrefs resp.Body, Accepts base href w

/-- Reachability from the seed in the link graph. -/
inductive Reach (hrefs : List html.Token → List String) (get : Web) (base : url.URL)
    (seed : String) : String → Prop
  | seed : Reach hrefs get base seed seed
  | link {v w : String} : Reach hrefs get base seed v → Link hrefs get base v w →
      Reach hrefs get base seed w

end Spec

/-! ## Example webs -/

/-- An `a` start tag with one `href` attribute. -/
def anchor (href : String) : html.Token :=
  { Typ := .StartTagToken, Data := "a", Attr := [{ Key := "href", Val := href }] }

/-- The crawler for seed `http://example.com/`. -/
def exampleCrawler : Crawler :=
  { baseURL := { Scheme := "http", Host := "example.com", Path := "/" } }

/-- The end-to-end scenario: the seed page links to `/a` (OK, no links) and to
`http://external.com/b`. -/
def scenarioWeb : Web := fun u =>
  if u = "http://example.com/" then
    some { StatusCode := 200, Body := [anchor "/a", anchor "http://external.com/b"] }
  else if u = "http://example.com/a" then some { StatusCode := 200 }
  else none

/-- The crawler `main` builds: `NewCrawler("http://example.com")`. -/
def siteCrawler : Crawler :=
  { baseURL := { Scheme := "http", Host := "example.com" } }

/-- The crawler for seed `http://example.com/docs/index.html`. -/
def docsCrawler : Crawler :=
  { baseURL := { Scheme := "http", Host := "example.com", Path := "/docs/index.html" } }

/-- The crawler `NewCrawler("")` returns: every field of the base URL is empty. -/
def emptyCrawler : Crawler :=
  { baseURL := {} }

/-- A cyclic web: the seed page links to `/b`, which links back to the seed. -/
def cycleWeb : Web := fun u =>
  if u = "http://example.com/" then some { StatusCode := 200, Body := [anchor "/b"] }
  else if u = "http://example.com/b" then some { StatusCode := 200, Body := [anchor "/"] }
  else none

/-- A web in which `/b` is linked from the seed page and from `/c`, and every
request for `/b` ends in a transport error. -/
def retryWeb : Web := fun u =>
  if u = "http://example.com/" then
    some { StatusCode := 200, Body := [anchor "/b", anchor "/c"] }
  else if u = "http://example.com/c" then some { StatusCode := 200, Body := [anchor "/b"] }
  else none

/-- A web whose seed page links to `/b` and then `/c`; `/b` cannot be fetched,
`/c` answers OK. -/
def faultWeb : Web := fun u =>
  if u = "http://example.com/" then
    some { StatusCode := 200, Body := [anchor "/b", anchor "/c"] }
  else if u = "http://example.com/c" then some { StatusCode := 200 }
  else none

/-- A web whose seed page answers 204 with a body that holds a link. -/
def noContentWeb : Web := fun u =>
  if u = "http://example.com/" then some { StatusCode := 204, Body := [anchor "/a"] }
  else some { StatusCode := 200 }

/-- A self-closing `a` tag with one `href` attribute, `<a href="..."/>`. -/
def selfClosingAnchor (href : String) : html.Token :=
  { Typ := .SelfClosingTagToken, Data := "a", Attr := [{ Key := "href", Val := href }] }

/-- A small site: the seed page links to `/l`, to another site and, through a
self-closing anchor, to `/s`; `/l` links back to the seed and to a page on a
subdomain. -/
def siteWeb : Web := fun u =>
  if u = "http://example.com/" then
    some { StatusCode := 200,
           Body := [anchor "/l", anchor "http://external.com/b", selfClosingAnchor "/s"] }
  else if u = "http://example.com/l" then
    some { StatusCode := 200, Body := [anchor "/", anchor "http://sub.example.com/d"] }
  else if u = "http://sub.example.com/d" then some { StatusCode := 200 }
  else none

/-- A web in which every fetch answers OK and the seed page holds one anchor,
written self-closing, to `/s`. -/
def selfClosingWeb : Web := fun u =>
  if u = "http://example.com/" then
    some { StatusCode := 200, Body := [selfClosingAnchor "/s"] }
  else some { StatusCode := 200 }

/-- The page of `main`'s seed holds three hrefs that have a scheme and no host;
nothing else can be fetched. -/
def opaqueWeb : Web := fun u =>
  if u = "http://example.com" then
    some { StatusCode := 200,
           Body := [anchor "mailto:a@other.com", anchor "http:other.com/x",
             anchor "https:evil.org/login"] }
  else none

/-! ## Facts about `net/url` -/

theorem setPath_fields {u v : url.URL} {p : String} (h : url.URL.setPath u p = some v) :
    v.Scheme = u.Scheme ∧ v.Opaque = u.Opaque := by
  simp only [url.URL.setPath] at h
  split at h
  · cases h
  · cases h; exact ⟨rfl, rfl⟩

theorem setFragment_fields {u v : url.URL} {f : String} (h : url.URL.setFragment u f = some v) :
    v.Scheme = u.Scheme ∧ v.Opaque = u.Opaque := by
  simp only [url.URL.setFragment] at h
  split at h
  · cases h
  · cases h; exact ⟨rfl, rfl⟩

theorem parseRest_opaque {u v : url.URL} {rest : List Char} {via : Bool}
    (h : url.parseRest u rest via = some v) (hu : u.Opaque = "") (hs : v.Scheme = "") :
    v.Opaque = "" := by
  unfold url.parseRest at h
  split at h
  · rename_i hc
    cases h
    exact absurd hs hc.2
  · split at h
    · cases h
    · split at h
      · cases h
      · split at h
        · split at h
          · cases h
          · rw [(setPath_fields h).2]; exact hu
        · split at h
          · rw [(setPath_fields h).2]; exact hu
          · rw [(setPath_fields h).2]; exact hu

/-- The parser sets `Opaque` only for a reference that has a scheme. -/
theorem parse_opaque {raw : String} {via : Bool} {u : url.URL}
    (h : url.parse raw via = some u) (hs : u.Scheme = "") : u.Opaque = "" := by
  unfold url.parse at h
  split at h
  · cases h
  · split at h
    · cases h
    · split at h
      · cases h; rfl
      · split at h
        · cases h
        · split at h
          · exact parseRest_opaque h rfl hs
          · exact parseRest_opaque h rfl hs

theorem Parse_opaque {href : String} {u : url.URL}
    (h : url.Parse href = some u) (hs : u.Scheme = "") : u.Opaque = "" := by
  simp only [url.Parse] at h
  split at h
  · cases h
  · rename_i v hv
    split at h
    · cases h
      exact parse_opaque hv hs
    · have := setFragment_fields h
      rw [this.2]
      exact parse_opaque hv (this.1 ▸ hs)

theorem str_ne_empty_iff {a : String} : a ≠ "" ↔ a.data ≠ [] := by
  constructor
  · intro h hd
    apply h
    exact String.ext hd
  · intro h he
    apply h
    rw [he]

theorem append_ne_empty_left {a : String} (b : String) (h : a ≠ "") : a ++ b ≠ "" := by
  rw [str_ne_empty_iff] at h ⊢
  simp [String.data_append, h]

theorem append_ne_empty_right (a : String) {b : String} (h : b ≠ "") : a ++ b ≠ "" := by
  rw [str_ne_empty_iff] at h ⊢
  simp [String.data_append, h]

theorem hierString_ne_empty (v : url.URL) {buf : String}
    (h : buf ++ v.authorityString ≠ "") : v.hierString buf ≠ "" := by
  simp only [url.URL.hierString]
  apply append_ne_empty_left
  split_ifs
  · exact append_ne_empty_left _ (append_ne_empty_left _ h)
  · exact append_ne_empty_left _ h
  · exact append_ne_empty_left _ h
  · exact h

/-- A URL with a scheme is written as a non-empty string. -/
theorem String_ne_empty_of_scheme (v : url.URL) (h : v.Scheme ≠ "") : v.String ≠ "" := by
  simp only [url.URL.String, if_pos h]
  apply append_ne_empty_left
  apply append_ne_empty_left
  split
  · exact append_ne_empty_left _ (append_ne_empty_left _ h)
  · exact hierString_ne_empty v (append_ne_empty_left _ (append_ne_empty_left _ h))

theorem authorityString_of_host (v : url.URL) (h : v.Host ≠ "") :
    v.authorityString = "//" ++ v.userString ++ url.escape v.Host .encodeHost := by
  unfold url.URL.authorityString
  rw [if_pos (Or.inr (Or.inl h)), if_neg (fun hc => h hc.2.1), if_pos (Or.inl h), if_pos h]

/-- A URL with a host and no opaque part is written as a non-empty string. -/
theorem String_ne_empty_of_host (v : url.URL) (ho : v.Opaque = "") (h : v.Host ≠ "") :
    v.String ≠ "" := by
  simp only [url.URL.String, ho, ne_eq, not_true_eq_false, if_false]
  apply append_ne_empty_left
  apply append_ne_empty_left
  apply hierString_ne_empty
  apply append_ne_empty_right
  rw [authorityString_of_host v h]
  exact append_ne_empty_left _ (append_ne_empty_left _ (by decide))

/-- The string of a URL that has a scheme, a host and no opaque part. -/
theorem String_of_scheme_host (v : url.URL) (hs : v.Scheme ≠ "") (hh : v.Host ≠ "")
    (ho : v.Opaque = "") :
    v.String = v.Scheme ++ "://" ++ v.userString ++ url.escape v.Host .encodeHost
      ++ (if v.EscapedPath ≠ "" ∧ v.EscapedPath.data.head? ≠ some '/' then "/" else "")
      ++ v.EscapedPath ++ v.queryString ++ v.fragmentString := by
  have hb : v.Scheme ++ ":" ++ v.authorityString ≠ "" :=
    append_ne_empty_left _ (append_ne_empty_left _ hs)
  have hcolon : v.Scheme ++ "://" = v.Scheme ++ ":" ++ "//" := by
    rw [String.append_assoc]; rfl
  simp only [url.URL.String, if_pos hs, ho, ne_eq, not_true_eq_false, if_false,
    url.URL.hierString]
  congr 2
  rw [hcolon]
  by_cases hp : v.EscapedPath ≠ "" ∧ v.EscapedPath.data.head? ≠ some '/'
  · have hp3 : v.EscapedPath ≠ "" ∧ v.EscapedPath.data.head? ≠ some '/' ∧ v.Host ≠ "" :=
      ⟨hp.1, hp.2, hh⟩
    rw [if_pos hp, if_pos hp3, if_neg (fun hc => append_ne_empty_left _ hb hc.1),
      authorityString_of_host v hh]
    simp only [String.append_assoc]
  · have hp3 : ¬ (v.EscapedPath ≠ "" ∧ v.EscapedPath.data.head? ≠ some '/' ∧ v.Host ≠ "") :=
      fun hc => hp ⟨hc.1, hc.2.1⟩
    rw [if_neg hp, if_neg hp3, if_neg (fun hc => hb hc.1), authorityString_of_host v hh]
    simp only [String.append_assoc, String.append_empty]

/-! ## Facts about the resolver -/

/-- What `isSameDomain` computes: the host equals the base host or ends with a
dot followed by the base host. -/
theorem isSameDomain_iff (c : Crawler) (u : url.URL) :
    c.isSameDomain u = true ↔
      (u.Host = c.baseURL.Host ∨ ∃ pre : String, u.Host = pre ++ "." ++ c.baseURL.Host) := by
  simp only [Crawler.isSameDomain, strings.HasSuffix, Bool.or_eq_true, decide_eq_true_eq]
  apply or_congr Iff.rfl
  rw [List.isSuffixOf_iff_suffix]
  constructor
  · rintro ⟨t, ht⟩
    refine ⟨⟨t⟩, ?_⟩
    apply String.ext
    simp [String.data_append, ← ht]
  · rintro ⟨pre, hpre⟩
    refine ⟨pre.data, ?_⟩
    rw [hpre]
    simp [String.data_append]

theorem inherit_host_of_empty (c : Crawler) (u : url.URL) (h : u.Host = "") :
    (c.inherit u).Host = c.baseURL.Host := by
  simp only [Crawler.inherit]
  split <;> simp_all

/-! ## Basic facts about the link extraction -/

theorem resolveURL_congr {c d : Crawler} (h : c.baseURL = d.baseURL) (href : String) :
    c.resolveURL href = d.resolveURL href := by
  simp only [Crawler.resolveURL, Crawler.inherit, Crawler.isSameDomain, h]

theorem hrefLoop_congr {c d : Crawler} (h : c.baseURL = d.baseURL) (links : List String)
    (attrs : List html.Attribute) : c.hrefLoop links attrs = d.hrefLoop links attrs := by
  induction attrs with
  | nil => rfl
  | cons a as ih => simp only [Crawler.hrefLoop, resolveURL_congr h, ih]

theorem extractLinksLoop_congr {c d : Crawler} (h : c.baseURL = d.baseURL)
    (body : List html.Token) :
    ∀ links, c.extractLinksLoop links body = d.extractLinksLoop links body := by
  induction body with
  | nil => intro links; rfl
  | cons t ts ih =>
    intro links
    simp only [Crawler.extractLinksLoop, hrefLoop_congr h, ih]

theorem extractLinks_congr {c d : Crawler} (h : c.baseURL = d.baseURL)
    (body : List html.Token) : c.extractLinks body = d.extractLinks body :=
  extractLinksLoop_congr h body []

theorem mem_hrefLoop {c : Crawler} {links : List String} {attrs : List html.Attribute}
    {l : String} (h : l ∈ c.hrefLoop links attrs) :
    l ∈ links ∨ (l ≠ "" ∧ ∃ href, c.resolveURL href = l) := by
  induction attrs with
  | nil => exact Or.inl h
  | cons a as ih =>
    simp only [Crawler.hrefLoop] at h
    split at h
    · split at h
      · rcases List.mem_append.1 h with h1 | h1
        · exact Or.inl h1
        · have hl : l = c.resolveURL a.Val := by simpa using h1
          subst hl
          exact Or.inr ⟨by assumption, a.Val, rfl⟩
      · exact Or.inl h
    · exact ih h

theorem mem_extractLinksLoop {c : Crawler} {body : List html.Token} {l : String} :
    ∀ {links : List String}, l ∈ c.extractLinksLoop links body →
      l ∈ links ∨ (l ≠ "" ∧ ∃ href, c.resolveURL href = l) := by
  induction body with
  | nil => intro links h; exact Or.inl h
  | cons t ts ih =>
    intro links h
    simp only [Crawler.extractLinksLoop] at h
    split at h
    · exact Or.inl h
    · split at h
      · rcases ih h with h1 | h1
        · exact mem_hrefLoop h1
        · exact Or.inr h1
      · exact ih h

theorem mem_extractLinks {c : Crawler} {body : List html.Token} {l : String}
    (h : l ∈ c.extractLinks body) : l ≠ "" ∧ ∃ href, c.resolveURL href = l := by
  rcases mem_extractLinksLoop h with h1 | h1
  · simp at h1
  · exact h1

theorem extractLinks_anchor (c : Crawler) (href : String) (h : c.resolveURL href ≠ "") :
    c.extractLinks [anchor href] = [c.resolveURL href] := by
  simp [Crawler.extractLinks, Crawler.extractLinksLoop, Crawler.hrefLoop, anchor, h]

/-! ## `visitPage` and the relation `Run` -/

@[simp] theorem request_crawler (s : State) (url : String) :
    (s.request url).crawler = s.crawler := rfl

@[simp] theorem request_requests (s : State) (url : String) :
    (s.request url).requests = s.requests ++ [url] := rfl

@[simp] theorem mark_visited (s : State) (url : String) :
    (s.mark url).crawler.visited = url :: s.crawler.visited := rfl

@[simp] theorem mark_baseURL (s : State) (url : String) :
    (s.mark url).crawler.baseURL = s.crawler.baseURL := rfl

@[simp] theorem mark_requests (s : State) (url : String) :
    (s.mark url).requests = s.requests := rfl

theorem contains_true_iff {vis : List String} {url : String} :
    vis.contains url = true ↔ url ∈ vis := by
  simp

theorem contains_false_iff {vis : List String} {url : String} :
    vis.contains url = false ↔ url ∉ vis := by
  simp

/-- A complete run followed by a run is a run of the two work lists. -/
theorem Run.append_of_eq {get : Web} {b1 : Bool} {l1 l2 : List String} {s s1 : State}
    (h1 : Run get b1 l1 s s1) :
    b1 = true → ∀ {b : Bool} {s2 : State}, Run get b l2 s1 s2 → Run get b (l1 ++ l2) s s2 := by
  induction h1 with
  | done s => intro _ b s2 h2; exact h2
  | stop links s => intro hb; cases hb
  | seen hv _ ih => intro hb b s2 h2; exact Run.seen hv (ih hb h2)
  | failed hv hg _ ih => intro hb b s2 h2; exact Run.failed hv hg (ih hb h2)
  | notOK hv hg hs _ ih => intro hb b s2 h2; exact Run.notOK hv hg hs (ih hb h2)
  | explored hv hg hs hr _ _ ih2 =>
    intro hb b s2 h2; exact Run.explored hv hg hs hr (ih2 hb h2)
  | inside _ _ _ _ _ => intro hb; cases hb

theorem Run.append {get : Web} {b : Bool} {l1 l2 : List String} {s s1 s2 : State}
    (h1 : Run get true l1 s s1) (h2 : Run get b l2 s1 s2) : Run get b (l1 ++ l2) s s2 :=
  h1.append_of_eq rfl h2

/-- A stopped run stays a stopped run when the work list is extended. -/
theorem Run.extend_of_eq {get : Web} {b : Bool} {l1 : List String} (l2 : List String)
    {s s1 : State} (h : Run get b l1 s s1) :
    b = false → Run get false (l1 ++ l2) s s1 := by
  induction h with
  | done s => intro hb; cases hb
  | stop links s => intro _; exact Run.stop _ s
  | seen hv _ ih => intro hb; exact Run.seen hv (ih hb)
  | failed hv hg _ ih => intro hb; exact Run.failed hv hg (ih hb)
  | notOK hv hg hs _ ih => intro hb; exact Run.notOK hv hg hs (ih hb)
  | explored hv hg hs hr _ _ ih2 => intro hb; exact Run.explored hv hg hs hr (ih2 hb)
  | inside hv hg hs hr _ => intro _; exact Run.inside hv hg hs hr

theorem run_of_visitLinks {get : Web} {visit : String → State → Outcome}
    (hvisit : ∀ url s, Run get (visit url s).finished [url] s (visit url s).state) :
    ∀ (links : List String) (s : State),
      Run get (visitLinks visit links s).finished links s (visitLinks visit links s).state := by
  intro links
  induction links with
  | nil => intro s; exact Run.done s
  | cons l ls ih =>
    intro s
    have h1 := hvisit l s
    simp only [visitLinks]
    cases hv : visit l s with
    | returned s1 =>
      rw [hv] at h1
      exact Run.append h1 (ih s1)
    | outOfFuel s1 =>
      rw [hv] at h1
      exact Run.extend_of_eq ls h1 rfl

/-- Every outcome of `visitPage` is described by `Run`: a returned call by a
complete run, a call that reached the fuel bound by a stopped one. -/
theorem run_of_visitPage {get : Web} :
    ∀ (fuel : Nat) (url : String) (s : State),
      Run get (visitPage get fuel url s).finished [url] s (visitPage get fuel url s).state := by
  intro fuel
  induction fuel with
  | zero => intro url s; exact Run.stop _ s
  | succ n ih =>
    intro url s
    simp only [visitPage]
    split
    · rename_i hv
      exact Run.seen hv (Run.done s)
    · rename_i hv
      have hv : s.crawler.visited.contains url = false := by simpa using hv
      split
      · rename_i hg
        exact Run.failed hv hg (Run.done _)
      · rename_i resp hg
        split
        · rename_i hs
          exact Run.notOK hv hg hs (Run.done _)
        · rename_i hs
          have hs : resp.StatusCode = http.StatusOK := by simpa using hs
          have hr := @run_of_visitLinks get (fun link acc => visitPage get n link acc)
            ih (((s.request url).mark url).crawler.extractLinks resp.Body)
            ((s.request url).mark url)
          revert hr
          generalize visitLinks (fun link acc => visitPage get n link acc)
            (((s.request url).mark url).crawler.extractLinks resp.Body)
            ((s.request url).mark url) = o
          intro hr
          cases o with
          | returned s1 => exact Run.explored hv hg hs hr (Run.done s1)
          | outOfFuel s1 => exact Run.inside hv hg hs hr

theorem run_of_returned {get : Web} {fuel : Nat} {url : String} {s s1 : State}
    (h : visitPage get fuel url s = .returned s1) : Run get true [url] s s1 := by
  have := @run_of_visitPage get fuel url s
  rw [h] at this
  exact this

/-- What a run, complete or stopped, leaves behind: the base URL is kept, the
requests made so far are kept and extended by `new`, the visited set only grows
and only by requested URLs whose fetch returned a response, each new request is
for a URL of the work list or for an accepted link, and after a complete run
each URL of the work list was already visited or is requested. -/
theorem Run.frame {get : Web} {c : Crawler} {b : Bool} {links : List String} {s s1 : State}
    (h : Run get b links s s1) (hb : s.crawler.baseURL = c.baseURL) :
    s1.crawler.baseURL = c.baseURL ∧
    ∃ new, s1.requests = s.requests ++ new ∧
      (∀ v ∈ s.crawler.visited, v ∈ s1.crawler.visited) ∧
      (b = true → ∀ l ∈ links, l ∈ s.crawler.visited ∨ l ∈ new) ∧
      (∀ v ∈ s1.crawler.visited, v ∈ s.crawler.visited ∨ (v ∈ new ∧ get v ≠ none)) ∧
      (∀ x ∈ new, x ∈ links ∨ Accepted c x) := by
  induction h with
  | done s =>
    exact ⟨hb, [], by simp, fun v hv => hv, by simp, fun v hv => Or.inl hv, by simp⟩
  | stop links s =>
    exact ⟨hb, [], by simp, fun v hv => hv, by simp, fun v hv => Or.inl hv, by simp⟩
  | @seen b url links s s1 hv _ ih =>
    obtain ⟨hb1, new, hreq, hmono, hl, hnew, hacc⟩ := ih hb
    refine ⟨hb1, new, hreq, hmono, ?_, hnew, ?_⟩
    · intro hbt l hmem
      rcases List.mem_cons.1 hmem with h1 | h1
      · subst h1; exact Or.inl (contains_true_iff.1 hv)
      · exact hl hbt l h1
    · intro x hx
      rcases hacc x hx with h1 | h1
      · exact Or.inl (List.mem_cons_of_mem _ h1)
      · exact Or.inr h1
  | @failed b url links s s1 hv hg _ ih =>
    obtain ⟨hb1, new, hreq, hmono, hl, hnew, hacc⟩ := ih (by simpa using hb)
    refine ⟨hb1, url :: new, by simpa using hreq, fun v hv => hmono v (by simpa using hv),
      ?_, ?_, ?_⟩
    · intro hbt l hmem
      rcases List.mem_cons.1 hmem with h1 | h1
      · subst h1; exact Or.inr (List.mem_cons_self _ _)
      · rcases hl hbt l h1 with h2 | h2
        · exact Or.inl (by simpa using h2)
        · exact Or.inr (List.mem_cons_of_mem _ h2)
    · intro v hv1
      rcases hnew v hv1 with h2 | h2
      · exact Or.inl (by simpa using h2)
      · exact Or.inr ⟨List.mem_cons_of_mem _ h2.1, h2.2⟩
    · intro x hx
      rcases List.mem_cons.1 hx with h1 | h1
      · subst h1; exact Or.inl (List.mem_cons_self _ _)
      · rcases hacc x h1 with h2 | h2
        · exact Or.inl (List.mem_cons_of_mem _ h2)
        · exact Or.inr h2
  | @notOK b url links s s1 resp hv hg hs _ ih =>
    obtain ⟨hb1, new, hreq, hmono, hl, hnew, hacc⟩ := ih (by simpa using hb)
    have hsome : get url ≠ none := by rw [hg]; exact Option.some_ne_none _
    refine ⟨hb1, url :: new, by simpa using hreq,
      fun v hv => hmono v (by simp [hv]), ?_, ?_, ?_⟩
    · intro hbt l hmem
      rcases List.mem_cons.1 hmem with h1 | h1
      · subst h1; exact Or.inr (List.mem_cons_self _ _)
      · rcases hl hbt l h1 with h2 | h2
        · rcases List.mem_cons.1 (by simpa using h2) with h3 | h3
          · subst h3; exact Or.inr (List.mem_cons_self _ _)
          · exact Or.inl h3
        · exact Or.inr (List.mem_cons_of_mem _ h2)
    · intro v hv1
      rcases hnew v hv1 with h2 | h2
      · rcases List.mem_cons.1 (by simpa using h2) with h3 | h3
        · subst h3; exact Or.inr ⟨List.mem_cons_self _ _, hsome⟩
        · exact Or.inl h3
      · exact Or.inr ⟨List.mem_cons_of_mem _ h2.1, h2.2⟩
    · intro x hx
      rcases List.mem_cons.1 hx with h1 | h1
      · subst h1; exact Or.inl (List.mem_cons_self _ _)
      · rcases hacc x h1 with h2 | h2
        · exact Or.inl (List.mem_cons_of_mem _ h2)
        · exact Or.inr h2
  | @explored b url links s s1 s2 resp hv hg hs _ _ ih1 ih2 =>
    have hc : ((s.request url).mark url).crawler.baseURL = c.baseURL := by simpa using hb
    obtain ⟨hb1, new1, hreq1, hmono1, hl1, hnew1, hacc1⟩ := ih1 hc
    obtain ⟨hb2, new2, hreq2, hmono2, hl2, hnew2, hacc2⟩ := ih2 hb1
    have hsome : get url ≠ none := by rw [hg]; exact Option.some_ne_none _
    have hcase : ∀ v, v ∈ s1.crawler.visited →
        v ∈ s.crawler.visited ∨ (v ∈ url :: (new1 ++ new2) ∧ get v ≠ none) := by
      intro v hv1
      rcases hnew1 v hv1 with h2 | h2
      · rcases List.mem_cons.1 (by simpa using h2) with h3 | h3
        · subst h3; exact Or.inr ⟨List.mem_cons_self _ _, hsome⟩
        · exact Or.inl h3
      · exact Or.inr ⟨List.mem_cons_of_mem _ (List.mem_append_left _ h2.1), h2.2⟩
    refine ⟨hb2, url :: (new1 ++ new2), ?_, fun v hv => hmono2 v (hmono1 v (by simp [hv])),
      ?_, ?_, ?_⟩
    · rw [hreq2, hreq1]; simp
    · intro hbt l hmem
      rcases List.mem_cons.1 hmem with h1 | h1
      · subst h1; exact Or.inr (List.mem_cons_self _ _)
      · rcases hl2 hbt l h1 with h2 | h2
        · exact (hcase l h2).imp id (fun h => h.1)
        · exact Or.inr (List.mem_cons_of_mem _ (List.mem_append_right _ h2))
    · intro v hv1
      rcases hnew2 v hv1 with h2 | h2
      · exact hcase v h2
      · exact Or.inr ⟨List.mem_cons_of_mem _ (List.mem_append_right _ h2.1), h2.2⟩
    · intro x hx
      rcases List.mem_cons.1 hx with h1 | h1
      · subst h1; exact Or.inl (List.mem_cons_self _ _)
      · rcases List.mem_append.1 h1 with h2 | h2
        · rcases hacc1 x h2 with h3 | h3
          · rw [extractLinks_congr hc] at h3
            exact Or.inr ⟨(mem_extractLinks h3).1, (mem_extractLinks h3).2⟩
          · exact Or.inr h3
        · rcases hacc2 x h2 with h3 | h3
          · exact Or.inl (List.mem_cons_of_mem _ h3)
          · exact Or.inr h3
  | @inside url links s s1 resp hv hg hs _ ih =>
    have hc : ((s.request url).mark url).crawler.baseURL = c.baseURL := by simpa using hb
    obtain ⟨hb1, new1, hreq1, hmono1, _, hnew1, hacc1⟩ := ih hc
    have hsome : get url ≠ none := by rw [hg]; exact Option.some_ne_none _
    refine ⟨hb1, url :: new1, by simpa using hreq1, fun v hv => hmono1 v (by simp [hv]),
      ?_, ?_, ?_⟩
    · intro hbt; cases hbt
    · intro v hv1
      rcases hnew1 v hv1 with h2 | h2
      · rcases List.mem_cons.1 (by simpa using h2) with h3 | h3
        · subst h3; exact Or.inr ⟨List.mem_cons_self _ _, hsome⟩
        · exact Or.inl h3
      · exact Or.inr ⟨List.mem_cons_of_mem _ h2.1, h2.2⟩
    · intro x hx
      rcases List.mem_cons.1 hx with h1 | h1
      · subst h1; exact Or.inl (List.mem_cons_self _ _)
      · rcases hacc1 x h1 with h3 | h3
        · rw [extractLinks_congr hc] at h3
          exact Or.inr ⟨(mem_extractLinks h3).1, (mem_extractLinks h3).2⟩
        · exact Or.inr h3

/-- The visited set only grows along a run. -/
theorem Run.visited_mono {get : Web} {b : Bool} {links : List String} {s s1 : State}
    (h : Run get b links s s1) : ∀ v ∈ s.crawler.visited, v ∈ s1.crawler.visited :=
  (h.frame (c := s.crawler) rfl).2.choose_spec.2.1

theorem Run.baseURL_eq {get : Web} {b : Bool} {links : List String} {s s1 : State}
    (h : Run get b links s s1) : s1.crawler.baseURL = s.crawler.baseURL :=
  (h.frame (c := s.crawler) rfl).1

theorem successors_of_ok {get : Web} {c : Crawler} {url : String} {resp : http.Response}
    (hg : get url = some resp) (hs : resp.StatusCode = http.StatusOK) :
    successors get c url = c.extractLinks resp.Body := by
  simp [successors, hg, hs]

/-- With every reachable page answering OK, a complete run visits each URL of
its work list, and each newly visited URL is reachable and has all its
successors visited at the end. -/
theorem Run.closure {get : Web} {c : Crawler} {seed : String}
    (hOK : ∀ u, Reachable get c seed u →
      ∃ resp, get u = some resp ∧ resp.StatusCode = http.StatusOK)
    {b : Bool} {links : List String} {s s1 : State} (h : Run get b links s s1)
    (hbt : b = true)
    (hb : s.crawler.baseURL = c.baseURL) (hr : ∀ l ∈ links, Reachable get c seed l) :
    (∀ l ∈ links, l ∈ s1.crawler.visited) ∧
    (∀ v ∈ s1.crawler.visited, v ∈ s.crawler.visited ∨
      (Reachable get c seed v ∧ ∀ w ∈ successors get c v, w ∈ s1.crawler.visited)) ∧
    (s.crawler.visited.Nodup → s1.crawler.visited.Nodup) ∧
    (s.requests = s.crawler.visited.reverse → s1.requests = s1.crawler.visited.reverse) := by
  induction h with
  | done s => exact ⟨by simp, fun v hv => Or.inl hv, id, id⟩
  | stop links s => cases hbt
  | @seen b url links s s1 hv hrun ih =>
    obtain ⟨h1, h2, h3, h4⟩ := ih hbt hb (fun l hl => hr l (List.mem_cons_of_mem _ hl))
    refine ⟨?_, h2, h3, h4⟩
    intro l hl
    rcases List.mem_cons.1 hl with e | e
    · subst e
      exact hrun.visited_mono _ (contains_true_iff.1 hv)
    · exact h1 l e
  | @failed b url links s s1 hv hg _ ih =>
    obtain ⟨resp, hg1, _⟩ := hOK url (hr url (List.mem_cons_self _ _))
    rw [hg] at hg1
    cases hg1
  | @notOK b url links s s1 resp hv hg hs _ ih =>
    obtain ⟨resp1, hg1, hs1⟩ := hOK url (hr url (List.mem_cons_self _ _))
    rw [hg] at hg1
    cases hg1
    exact absurd hs1 hs
  | @explored b url links s s1 s2 resp hv hg hs hrun1 hrun2 ih1 ih2 =>
    have hc : ((s.request url).mark url).crawler.baseURL = c.baseURL := by simpa using hb
    have hurl : Reachable get c seed url := hr url (List.mem_cons_self _ _)
    have hsucc : successors get c url
        = ((s.request url).mark url).crawler.extractLinks resp.Body := by
      rw [successors_of_ok hg hs, extractLinks_congr hc]
    obtain ⟨a1, a2, a3, a4⟩ := ih1 rfl hc (by
      intro l hl
      rw [← hsucc] at hl
      exact Reachable.link hurl hl)
    have hb1 : s1.crawler.baseURL = c.baseURL := (hrun1.frame hc).1
    obtain ⟨b1, b2, b3, b4⟩ := ih2 hbt hb1 (fun l hl => hr l (List.mem_cons_of_mem _ hl))
    have mono1 := hrun1.visited_mono
    have mono2 := hrun2.visited_mono
    refine ⟨?_, ?_, ?_, ?_⟩
    · intro l hl
      rcases List.mem_cons.1 hl with e | e
      · subst e
        exact mono2 _ (mono1 _ (by simp))
      · exact b1 l e
    · intro v hv1
      rcases b2 v hv1 with e | e
      · rcases a2 v e with f | f
        · rcases List.mem_cons.1 (by simpa using f) with g | g
          · subst g
            refine Or.inr ⟨hurl, ?_⟩
            intro w hw
            rw [hsucc] at hw
            exact mono2 _ (a1 w hw)
          · exact Or.inl g
        · exact Or.inr ⟨f.1, fun w hw => mono2 _ (f.2 w hw)⟩
      · exact Or.inr e
    · intro hnd
      exact b3 (a3 (by
        simp only [mark_visited, request_crawler]
        exact List.nodup_cons.2 ⟨contains_false_iff.1 hv, hnd⟩))
    · intro hrq
      exact b4 (a4 (by simp [hrq]))
  | inside _ _ _ _ _ => cases hbt

/-! ## Termination -/

/-- A loop of calls returns when each call returns from every state satisfying
an invariant and re-establishes it. -/
theorem visitLinks_returns {visit : String → State → Outcome} {P : State → Prop}
    (links : List String)
    (hf : ∀ l ∈ links, ∀ s, P s → ∃ s1, visit l s = .returned s1 ∧ P s1) :
    ∀ s, P s → ∃ s1, visitLinks visit links s = .returned s1 ∧ P s1 := by
  induction links with
  | nil => intro s hs; exact ⟨s, rfl, hs⟩
  | cons l ls ih =>
    intro s hs
    obtain ⟨sm, hm, hPm⟩ := hf l (List.mem_cons_self _ _) s hs
    obtain ⟨s1, h1, hP1⟩ := ih (fun l1 hl1 => hf l1 (List.mem_cons_of_mem _ hl1)) sm hPm
    refine ⟨s1, ?_, hP1⟩
    simp only [visitLinks, hm]
    exact h1

theorem unvisited_card_le (U vis : List String) : (unvisited U vis).card ≤ U.length :=
  (Finset.card_filter_le _ _).trans (List.toFinset_card_le U)

theorem unvisited_mono {U vis vis1 : List String} (h : ∀ v ∈ vis, v ∈ vis1) :
    (unvisited U vis1).card ≤ (unvisited U vis).card := by
  apply Finset.card_le_card
  intro x hx
  simp only [unvisited, Finset.mem_filter, List.mem_toFinset] at hx ⊢
  exact ⟨hx.1, fun hv => hx.2 (h x hv)⟩

theorem unvisited_mark {U vis : List String} {url : String} (hU : url ∈ U) (hv : url ∉ vis) :
    (unvisited U (url :: vis)).card < (unvisited U vis).card := by
  apply Finset.card_lt_card
  rw [Finset.ssubset_iff_of_subset]
  · refine ⟨url, ?_, ?_⟩
    · simp [unvisited, hU, hv]
    · simp [unvisited]
  · intro x hx
    simp only [unvisited, Finset.mem_filter, List.mem_toFinset, List.mem_cons, not_or] at hx ⊢
    exact ⟨hx.1, hx.2.2⟩

/-- Termination of `visitPage`: when the URLs reachable from `seed` all lie in
the finite list `U`, a call on a reachable URL returns with any fuel above the
number of URLs of `U` still unvisited. -/
theorem visitPage_returns {get : Web} {c : Crawler} {seed : String} {U : List String}
    (hfin : ∀ u, Reachable get c seed u → u ∈ U) :
    ∀ (m : Nat) (url : String) (s : State), Reachable get c seed url →
      s.crawler.baseURL = c.baseURL → (unvisited U s.crawler.visited).card ≤ m →
      ∃ s1, visitPage get (m + 1) url s = .returned s1 := by
  intro m
  induction m with
  | zero =>
    intro url s hr hb hm
    simp only [visitPage]
    split
    · exact ⟨_, rfl⟩
    · rename_i hv
      have hv : url ∉ s.crawler.visited := by simpa using hv
      have hpos : 0 < (unvisited U s.crawler.visited).card := by
        apply Finset.card_pos.2
        exact ⟨url, by simp [unvisited, hfin url hr, hv]⟩
      omega
  | succ k ih =>
    intro url s hr hb hm
    simp only [visitPage]
    split
    · exact ⟨_, rfl⟩
    · rename_i hv
      have hv : url ∉ s.crawler.visited := by simpa using hv
      split
      · exact ⟨_, rfl⟩
      · rename_i resp hg
        split
        · exact ⟨_, rfl⟩
        · rename_i hs
          have hs : resp.StatusCode = http.StatusOK := by simpa using hs
          have hc : ((s.request url).mark url).crawler.baseURL = c.baseURL := by simpa using hb
          have hlt := unvisited_mark (hfin url hr) hv
          have := @visitLinks_returns
            (fun link acc => visitPage get (k + 1) link acc)
            (fun t => t.crawler.baseURL = c.baseURL
              ∧ (unvisited U t.crawler.visited).card ≤ k)
            (((s.request url).mark url).crawler.extractLinks resp.Body)
            (by
              intro l hl t ht
              rw [extractLinks_congr hc, ← successors_of_ok hg hs] at hl
              obtain ⟨t1, h1⟩ := ih l t (Reachable.link hr hl) ht.1 ht.2
              have hrun := run_of_returned h1
              refine ⟨t1, h1, ?_, ?_⟩
              · rw [hrun.baseURL_eq]; exact ht.1
              · exact (unvisited_mono hrun.visited_mono).trans ht.2)
            ((s.request url).mark url)
            ⟨hc, by
              simp only [mark_visited, request_crawler]
              omega⟩
          obtain ⟨s1, h1, _⟩ := this
          exact ⟨s1, h1⟩

/-- A complete run has one outcome. -/
theorem Run.deterministic {get : Web} {b : Bool} {links : List String} {s s1 s2 : State}
    (h1 : Run get b links s s1) (hb : b = true) (h2 : Run get true links s s2) :
    s1 = s2 := by
  induction h1 generalizing s2 with
  | done s => cases h2; rfl
  | stop links s => cases hb
  | seen hv _ ih =>
    cases h2 with
    | seen _ hr => exact ih hb hr
    | failed hv2 _ _ => rw [hv] at hv2; cases hv2
    | notOK hv2 _ _ _ => rw [hv] at hv2; cases hv2
    | explored hv2 _ _ _ _ => rw [hv] at hv2; cases hv2
  | failed hv hg _ ih =>
    cases h2 with
    | seen hv2 _ => rw [hv] at hv2; cases hv2
    | failed _ _ hr => exact ih hb hr
    | notOK _ hg2 _ _ => rw [hg] at hg2; cases hg2
    | explored _ hg2 _ _ _ => rw [hg] at hg2; cases hg2
  | notOK hv hg hs _ ih =>
    cases h2 with
    | seen hv2 _ => rw [hv] at hv2; cases hv2
    | failed _ hg2 _ => rw [hg] at hg2; cases hg2
    | notOK _ _ _ hr => exact ih hb hr
    | explored _ hg2 hs2 _ _ => rw [hg] at hg2; cases hg2; exact absurd hs2 hs
  | explored hv hg hs _ _ ih1 ih2 =>
    cases h2 with
    | seen hv2 _ => rw [hv] at hv2; cases hv2
    | failed _ hg2 _ => rw [hg] at hg2; cases hg2
    | notOK _ hg2 hs2 _ => rw [hg] at hg2; cases hg2; exact absurd hs hs2
    | explored _ hg2 _ hr1 hr2 =>
      rw [hg] at hg2
      cases hg2
      have := ih1 rfl hr1
      subst this
      exact ih2 hb hr2
  | inside _ _ _ _ _ => cases hb

theorem inherit_self (c : Crawler) (u : url.URL) (hs : u.Scheme ≠ "") (hh : u.Host ≠ "") :
    c.inherit u = u := by
  simp [Crawler.inherit, hs, hh]

theorem inherit_scheme (c : Crawler) (u : url.URL) (hs : u.Scheme = "") (hh : u.Host ≠ "") :
    c.inherit u = { u with Scheme := c.baseURL.Scheme } := by
  simp [Crawler.inherit, hs, hh]

theorem inherit_host (c : Crawler) (u : url.URL) (hs : u.Scheme ≠ "") (hh : u.Host = "") :
    c.inherit u = { u with Host := c.baseURL.Host } := by
  simp [Crawler.inherit, hs, hh]

theorem inherit_both (c : Crawler) (u : url.URL) (hs : u.Scheme = "") (hh : u.Host = "") :
    c.inherit u = { u with Scheme := c.baseURL.Scheme, Host := c.baseURL.Host } := by
  simp [Crawler.inherit, hs, hh]

theorem resolveURL_of_parse (c : Crawler) {href : String} {u : url.URL}
    (hp : url.Parse href = some u) :
    c.resolveURL href = if c.isSameDomain (c.inherit u) then (c.inherit u).String else "" := by
  simp only [Crawler.resolveURL, hp]

theorem resolveURL_of_absolute (c : Crawler) {href : String} {u : url.URL}
    (hp : url.Parse href = some u) (hs : u.Scheme ≠ "") (hh : u.Host ≠ "") :
    c.resolveURL href = if c.isSameDomain u then u.String else "" := by
  rw [resolveURL_of_parse c hp, inherit_self c u hs hh]

theorem resolveURL_ne_empty {c : Crawler} {href : String} (h : c.resolveURL href ≠ "") :
    ∃ p, url.Parse href = some p ∧ c.isSameDomain (c.inherit p) = true ∧
      c.resolveURL href = (c.inherit p).String := by
  cases hp : url.Parse href with
  | none => simp [Crawler.resolveURL, hp] at h
  | some p =>
    rw [resolveURL_of_parse c hp] at h ⊢
    by_cases hd : c.isSameDomain (c.inherit p) = true
    · exact ⟨p, rfl, hd, by rw [if_pos hd]⟩
    · rw [if_neg hd] at h
      exact absurd rfl h

theorem visitPage_of_ok {get : Web} {url : String} {s : State} {resp : http.Response}
    (fuel : Nat) (hv : url ∉ s.crawler.visited) (hg : get url = some resp)
    (hs : resp.StatusCode = http.StatusOK) :
    visitPage get (fuel + 1) url s =
      visitLinks (fun link acc => visitPage get fuel link acc)
        (s.crawler.extractLinks resp.Body) ((s.request url).mark url) := by
  have hc : s.crawler.visited.contains url = false := contains_false_iff.2 hv
  have he : ((s.request url).mark url).crawler.extractLinks resp.Body
      = s.crawler.extractLinks resp.Body :=
    extractLinks_congr (mark_baseURL (s.request url) url) _
  simp only [visitPage, hc, hg, hs, he]
  simp

/-! ## The resolver and the link extraction against the specification's wording -/

theorem inherit_eq_spec (c : Crawler) (u : url.URL) :
    c.inherit u = Spec.inherit c.baseURL u := by
  by_cases hs : u.Scheme = "" <;> by_cases hh : u.Host = "" <;>
    simp [Crawler.inherit, Spec.inherit, hs, hh]

/-- The resolver of the code accepts exactly what the resolver of the
specification accepts, with the same result. -/
theorem resolveURL_iff_accepts (c : Crawler) (href l : String) :
    (c.resolveURL href = l ∧ l ≠ "") ↔ Spec.Accepts c.baseURL href l := by
  constructor
  · rintro ⟨hres, hne⟩
    obtain ⟨p, hp, hd, hstr⟩ := @resolveURL_ne_empty c href (by rw [hres]; exact hne)
    refine ⟨hne, p, hp, ?_, ?_⟩
    · rw [← inherit_eq_spec]
      exact (isSameDomain_iff c _).1 hd
    · rw [← inherit_eq_spec, ← hres, hstr]
  · rintro ⟨hne, ref, hp, hd, hstr⟩
    rw [← inherit_eq_spec] at hd hstr
    have hdom : c.isSameDomain (c.inherit ref) = true := (isSameDomain_iff c _).2 hd
    refine ⟨?_, hne⟩
    rw [resolveURL_of_parse c hp, if_pos hdom, hstr]

theorem hrefLoop_eq (c : Crawler) (links : List String) (attrs : List html.Attribute) :
    c.hrefLoop links attrs = links ++
      (match Spec.firstHref attrs with
        | some href => if c.resolveURL href ≠ "" then [c.resolveURL href] else []
        | none => []) := by
  induction attrs with
  | nil => simp [Crawler.hrefLoop, Spec.firstHref]
  | cons a as ih =>
    simp only [Crawler.hrefLoop, Spec.firstHref]
    split
    · split <;> simp_all
    · exact ih

theorem mem_extractLinksLoop_iff (c : Crawler) (body : List html.Token) (l : String) :
    ∀ links : List String, l ∈ c.extractLinksLoop links body ↔
      (l ∈ links ∨ ∃ href ∈ Spec.startTagHrefs body, c.resolveURL href = l ∧ l ≠ "") := by
  induction body with
  | nil => intro links; simp [Crawler.extractLinksLoop, Spec.startTagHrefs, Spec.scanned]
  | cons t ts ih =>
    intro links
    simp only [Crawler.extractLinksLoop]
    by_cases he : t.Typ = .ErrorToken
    · simp [he, Spec.startTagHrefs, Spec.scanned]
    · by_cases ha : t.Typ = .StartTagToken ∧ t.Data = "a"
      · rw [if_neg he, if_pos ha, ih, hrefLoop_eq]
        have hcons : Spec.startTagHrefs (t :: ts)
            = (Spec.firstHref t.Attr).toList ++ Spec.startTagHrefs ts := by
          simp only [Spec.startTagHrefs, Spec.scanned, if_neg he, List.filterMap_cons, if_pos ha]
          cases Spec.firstHref t.Attr <;> simp
        rw [hcons]
        cases hf : Spec.firstHref t.Attr with
        | none => simp
        | some href =>
          simp only [List.mem_append, Option.toList_some, List.mem_singleton]
          by_cases hn : c.resolveURL href = ""
          · simp only [hn, ne_eq, not_true_eq_false, if_false, List.not_mem_nil, or_false]
            constructor
            · rintro (h | ⟨x, hx, h1, h2⟩)
              · exact Or.inl h
              · exact Or.inr ⟨x, Or.inr hx, h1, h2⟩
            · rintro (h | ⟨x, hx | hx, h1, h2⟩)
              · exact Or.inl h
              · subst hx; rw [hn] at h1; exact absurd h1.symm h2
              · exact Or.inr ⟨x, hx, h1, h2⟩
          · simp only [ne_eq, hn, not_false_eq_true, if_true, List.mem_singleton]
            constructor
            · rintro ((h | h) | ⟨x, hx, h1, h2⟩)
              · exact Or.inl h
              · exact Or.inr ⟨href, Or.inl rfl, h.symm, by rw [h]; exact hn⟩
              · exact Or.inr ⟨x, Or.inr hx, h1, h2⟩
            · rintro (h | ⟨x, hx | hx, h1, h2⟩)
              · exact Or.inl (Or.inl h)
              · subst hx; exact Or.inl (Or.inr h1.symm)
              · exact Or.inr ⟨x, hx, h1, h2⟩
      · rw [if_neg he, if_neg ha, ih]
        have hcons : Spec.startTagHrefs (t :: ts) = Spec.startTagHrefs ts := by
          simp only [Spec.startTagHrefs, Spec.scanned, if_neg he, List.filterMap_cons, if_neg ha]
        rw [hcons]

/-- The links `extractLinks` returns are exactly the accepted results of the
hrefs of the page's `a` start tags. -/
theorem mem_extractLinks_iff (c : Crawler) (body : List html.Token) (l : String) :
    l ∈ c.extractLinks body ↔
      ∃ href ∈ Spec.startTagHrefs body, Spec.Accepts c.baseURL href l := by
  rw [Crawler.extractLinks, mem_extractLinksLoop_iff]
  simp only [List.not_mem_nil, false_or]
  constructor
  · rintro ⟨href, hin, h⟩
    exact ⟨href, hin, (resolveURL_iff_accepts c href l).1 h⟩
  · rintro ⟨href, hin, h⟩
    exact ⟨href, hin, (resolveURL_iff_accepts c href l).2 h⟩

theorem successors_iff_link (get : Web) (c : Crawler) (v w : String) :
    w ∈ successors get c v ↔ Spec.Link Spec.startTagHrefs get c.baseURL v w := by
  unfold successors Spec.Link
  cases hg : get v with
  | none => simp
  | some resp =>
    by_cases hs : resp.StatusCode = http.StatusOK
    · simp [hs, mem_extractLinks_iff]
    · simp [hs]

theorem reachable_iff_reach (get : Web) (c : Crawler) (seed u : String) :
    Reachable get c seed u ↔ Spec.Reach Spec.startTagHrefs get c.baseURL seed u := by
  constructor
  · intro h
    induction h with
    | seed => exact Spec.Reach.seed
    | link _ hw ih => exact Spec.Reach.link ih ((successors_iff_link get c _ _).1 hw)
  · intro h
    induction h with
    | seed => exact Reachable.seed
    | link _ hw ih => exact Reachable.link ih ((successors_iff_link get c _ _).2 hw)

/-! ## Requests per URL -/

/-- Requests along a run, counted per URL whose fetch returns a response: none
when the URL was already visited, at most one otherwise, and a requested one is
visited at the end. -/
theorem Run.requests_once {get : Web} {b : Bool} {links : List String} {s s1 : State}
    (h : Run get b links s s1) :
    ∃ new, s1.requests = s.requests ++ new ∧
      ∀ u, get u ≠ none →
        (u ∈ s.crawler.visited → new.count u = 0) ∧ new.count u ≤ 1 ∧
        (0 < new.count u → u ∈ s1.crawler.visited) := by
  induction h with
  | done s => exact ⟨[], by simp, fun u _ => by simp⟩
  | stop links s => exact ⟨[], by simp, fun u _ => by simp⟩
  | seen hv _ ih => exact ih
  | @failed b url links s s1 hv hg hrun ih =>
    obtain ⟨new, hreq, hcount⟩ := ih
    refine ⟨url :: new, by simpa using hreq, ?_⟩
    intro u hu
    have hne : url ≠ u := by
      intro e
      rw [e] at hg
      exact hu hg
    have hc : (url :: new).count u = new.count u := by
      rw [List.count_cons_of_ne (Ne.symm hne)]
    rw [hc]
    obtain ⟨c1, c2, c3⟩ := hcount u hu
    exact ⟨fun hin => c1 (by simpa using hin), c2, c3⟩
  | @notOK b url links s s1 resp hv hg hs hrun ih =>
    obtain ⟨new, hreq, hcount⟩ := ih
    refine ⟨url :: new, by simpa using hreq, ?_⟩
    intro u hu
    obtain ⟨c1, c2, c3⟩ := hcount u hu
    by_cases e : url = u
    · subst e
      have h0 : new.count url = 0 := c1 (by simp)
      have hc : (url :: new).count url = 1 := by
        rw [List.count_cons_self, h0]
      rw [hc]
      refine ⟨fun hin => absurd hin (contains_false_iff.1 hv), le_refl _, fun _ => ?_⟩
      exact hrun.visited_mono _ (by simp)
    · have hc : (url :: new).count u = new.count u := by
        rw [List.count_cons_of_ne (Ne.symm e)]
      rw [hc]
      exact ⟨fun hin => c1 (by simp [hin]), c2, c3⟩
  | @explored b url links s s1 s2 resp hv hg hs hrun1 hrun2 ih1 ih2 =>
    obtain ⟨new1, hreq1, hcount1⟩ := ih1
    obtain ⟨new2, hreq2, hcount2⟩ := ih2
    refine ⟨url :: (new1 ++ new2), by rw [hreq2, hreq1]; simp, ?_⟩
    intro u hu
    obtain ⟨a1, a2, a3⟩ := hcount1 u hu
    obtain ⟨b1, b2, b3⟩ := hcount2 u hu
    have hsum : (new1 ++ new2).count u ≤ 1 ∧
        (0 < (new1 ++ new2).count u → u ∈ s2.crawler.visited) := by
      rw [List.count_append]
      by_cases hp : 0 < new1.count u
      · have := b1 (a3 hp)
        exact ⟨by omega, fun _ => hrun2.visited_mono _ (a3 hp)⟩
      · exact ⟨by omega, fun hq => b3 (by omega)⟩
    by_cases e : url = u
    · subst e
      have h1 : new1.count url = 0 := a1 (by simp)
      have h2 : new2.count url = 0 := b1 (hrun1.visited_mono _ (by simp))
      have hc : (url :: (new1 ++ new2)).count url = 1 := by
        rw [List.count_cons_self, List.count_append, h1, h2]
      rw [hc]
      refine ⟨fun hin => absurd hin (contains_false_iff.1 hv), le_refl _, fun _ => ?_⟩
      exact hrun2.visited_mono _ (hrun1.visited_mono _ (by simp))
    · have hc : (url :: (new1 ++ new2)).count u = (new1 ++ new2).count u := by
        rw [List.count_cons_of_ne (Ne.symm e)]
      rw [hc]
      refine ⟨fun hin => ?_, hsum.1, hsum.2⟩
      have h1 : new1.count u = 0 := a1 (by simp [hin])
      have h2 : new2.count u = 0 := b1 (hrun1.visited_mono _ (by simp [hin]))
      rw [List.count_append, h1, h2]
  | @inside url links s s1 resp hv hg hs hrun ih =>
    obtain ⟨new, hreq, hcount⟩ := ih
    refine ⟨url :: new, by simpa using hreq, ?_⟩
    intro u hu
    obtain ⟨c1, c2, c3⟩ := hcount u hu
    by_cases e : url = u
    · subst e
      have h0 : new.count url = 0 := c1 (by simp)
      have hc : (url :: new).count url = 1 := by
        rw [List.count_cons_self, h0]
      rw [hc]
      refine ⟨fun hin => absurd hin (contains_false_iff.1 hv), le_refl _, fun _ => ?_⟩
      exact hrun.visited_mono _ (by simp)
    · have hc : (url :: new).count u = new.count u := by
        rw [List.count_cons_of_ne (Ne.symm e)]
      rw [hc]
      exact ⟨fun hin => c1 (by simp [hin]), c2, c3⟩

/-! ## The claims -/

/-- C1. Termination: when the URL strings reachable from the seed in the link
graph all lie in a finite list `U` (cycles allowed), `Crawl` returns, with the
same final state for every fuel above `U.length`: the recursion of `visitPage`
is never deeper than the number of distinct reachable URLs plus one. -/
theorem crawl_terminates (get : Web) (c : Crawler) (U : List String)
    (hfin : ∀ u, Reachable get c c.baseURL.String u → u ∈ U) :
    ∃ s, ∀ fuel, U.length + 1 ≤ fuel → Crawl get fuel c = .returned s := by
  have hcard : (unvisited U c.visited).card ≤ U.length := unvisited_card_le U c.visited
  obtain ⟨s, hs⟩ := visitPage_returns hfin U.length c.baseURL.String
    { crawler := c, requests := [] } Reachable.seed rfl hcard
  refine ⟨s, ?_⟩
  intro fuel hfuel
  obtain ⟨m, rfl⟩ : ∃ m, fuel = m + 1 := ⟨fuel - 1, by omega⟩
  obtain ⟨s1, hs1⟩ := visitPage_returns hfin m c.baseURL.String
    { crawler := c, requests := [] } Reachable.seed rfl (by
      have : (unvisited U c.visited).card ≤ m := by omega
      exact this)
  have := (run_of_returned hs1).deterministic rfl (run_of_returned hs)
  subst this
  exact hs1

theorem cycleWeb_reachable (u : String)
    (h : Reachable cycleWeb exampleCrawler exampleCrawler.baseURL.String u) :
    u ∈ ["http://example.com/", "http://example.com/b"] := by
  induction h with
  | seed => decide
  | @link v w _ hw ih =>
    have h1 : successors cycleWeb exampleCrawler "http://example.com/"
        = ["http://example.com/b"] := by decide
    have h2 : successors cycleWeb exampleCrawler "http://example.com/b"
        = ["http://example.com/"] := by decide
    simp only [List.mem_cons, List.mem_singleton, List.not_mem_nil, or_false] at ih
    rcases ih with e | e
    · subst e
      rw [h1] at hw
      simp only [List.mem_singleton] at hw
      subst hw
      decide
    · subst e
      rw [h2] at hw
      simp only [List.mem_singleton] at hw
      subst hw
      decide

/-- Witness of C1 on a cyclic web (the seed links to `/b`, `/b` links back). -/
theorem crawl_terminates_witness :
    ∃ s, ∀ fuel, ["http://example.com/", "http://example.com/b"].length + 1 ≤ fuel →
      Crawl cycleWeb fuel exampleCrawler = .returned s :=
  crawl_terminates cycleWeb exampleCrawler _ cycleWeb_reachable

/-- C2, on the code. At every moment of a `Crawl` run, finished or not, a URL
whose fetch returns a response, whatever its status, has been passed to
`http.Get` at most once.  A URL whose fetch fails with a transport error is not
covered: in `retryWeb` the page `/b` is linked from the seed page and from
`/c`, its fetch fails, and one `Crawl` run passes `http://example.com/b` to
`http.Get` twice. -/
theorem fetched_once_unless_failed :
    (∀ (get : Web) (c : Crawler) (fuel : Nat) (u : String), get u ≠ none →
      (Crawl get fuel c).state.requests.count u ≤ 1) ∧
    retryWeb "http://example.com/b" = none ∧
    Crawl retryWeb 3 exampleCrawler
      = .returned { crawler := { exampleCrawler with
                      visited := ["http://example.com/c", "http://example.com/"] },
                    requests := ["http://example.com/", "http://example.com/b",
                      "http://example.com/c", "http://example.com/b"] } ∧
    (Crawl retryWeb 3 exampleCrawler).state.requests.count "http://example.com/b" = 2 := by
  refine ⟨?_, by decide, by decide, by decide⟩
  intro get c fuel u hu
  obtain ⟨new, hreq, hcount⟩ :=
    (run_of_visitPage fuel c.baseURL.String { crawler := c, requests := [] }).requests_once
  have : (Crawl get fuel c).state.requests = new := by simpa [Crawl] using hreq
  rw [this]
  exact (hcount u hu).2.1

/-- C3, on the code. A `visitPage` call on an unvisited URL whose fetch fails
with a transport error returns with the request made and the visited set
unchanged, so the URL is not recorded.  In `retryWeb` the next `visitPage` call
on `http://example.com/b` fetches it again, and after the whole `Crawl` run the
twice-requested URL is still not in the visited set. -/
theorem failed_url_not_marked :
    (∀ (get : Web) (fuel : Nat) (url : String) (s : State), url ∉ s.crawler.visited →
      get url = none →
      visitPage get (fuel + 1) url s
        = .returned { crawler := s.crawler, requests := s.requests ++ [url] }) ∧
    visitPage retryWeb 1 "http://example.com/b" { crawler := exampleCrawler }
      = .returned { crawler := exampleCrawler, requests := ["http://example.com/b"] } ∧
    exampleCrawler.visited = [] ∧
    visitPage retryWeb 1 "http://example.com/b"
        { crawler := exampleCrawler, requests := ["http://example.com/b"] }
      = .returned { crawler := exampleCrawler,
                    requests := ["http://example.com/b", "http://example.com/b"] } ∧
    (Crawl retryWeb 3 exampleCrawler).state.crawler.visited
      = ["http://example.com/c", "http://example.com/"] := by
  refine ⟨?_, by decide, by decide, by decide, by decide⟩
  intro get fuel url s hv hg
  have hc : s.crawler.visited.contains url = false := contains_false_iff.2 hv
  simp only [visitPage, hc, hg]
  simp [State.request]

/-- C4. Domain scoping: `isSameDomain` accepts exactly when the host equals the
base host or ends with a dot followed by the base host; `resolveURL` returns the
empty string for every href whose host (after inheritance) is neither; with
base host `example.com`, `http://other.com/x` and `http://notexample.com/x`
are rejected and `http://sub.example.com/x` is accepted. -/
theorem domain_scoping :
    (∀ (c : Crawler) (u : url.URL), c.isSameDomain u = true ↔
      (u.Host = c.baseURL.Host ∨ ∃ pre : String, u.Host = pre ++ "." ++ c.baseURL.Host)) ∧
    (∀ (c : Crawler) (href : String) (u : url.URL), url.Parse href = some u →
      ¬ ((c.inherit u).Host = c.baseURL.Host ∨
          ∃ pre : String, (c.inherit u).Host = pre ++ "." ++ c.baseURL.Host) →
      c.resolveURL href = "") ∧
    (∀ c : Crawler, c.baseURL.Host = "example.com" →
      c.resolveURL "http://other.com/x" = "" ∧
      c.resolveURL "http://notexample.com/x" = "" ∧
      c.resolveURL "http://sub.example.com/x" = "http://sub.example.com/x") := by
  refine ⟨isSameDomain_iff, ?_, ?_⟩
  · intro c href u hp hn
    rw [← isSameDomain_iff] at hn
    simp only [Crawler.resolveURL, hp]
    rw [if_neg hn]
  · intro c hc
    have p1 : url.Parse "http://other.com/x"
        = some { Scheme := "http", Host := "other.com", Path := "/x" } := by decide
    have p2 : url.Parse "http://notexample.com/x"
        = some { Scheme := "http", Host := "notexample.com", Path := "/x" } := by decide
    have p3 : url.Parse "http://sub.example.com/x"
        = some { Scheme := "http", Host := "sub.example.com", Path := "/x" } := by decide
    refine ⟨?_, ?_, ?_⟩
    · rw [resolveURL_of_absolute c p1 (by decide) (by decide)]
      simp only [Crawler.isSameDomain, hc]
      decide
    · rw [resolveURL_of_absolute c p2 (by decide) (by decide)]
      simp only [Crawler.isSameDomain, hc]
      decide
    · rw [resolveURL_of_absolute c p3 (by decide) (by decide)]
      simp only [Crawler.isSameDomain, hc]
      decide

/-- Witness of C4: a cross-domain href is rejected by the crawler for
`http://example.com/`. -/
theorem domain_scoping_witness :
    exampleCrawler.resolveURL "http://example.org/x" = "" :=
  domain_scoping.2.1 exampleCrawler "http://example.org/x"
    { Scheme := "http", Host := "example.org", Path := "/x" } (by decide)
    (by rw [← isSameDomain_iff]; decide)


/-- C5 (as amended). Relative resolution: for an href that parses to a
reference with no scheme and no host, `resolveURL` fills in the base scheme and
the base host and returns the string of the resulting URL; that string is
non-empty whenever the base has a non-empty scheme or a non-empty host, and
with both present it is base scheme, `://`, the href's user information, the
base host, the href's path (after a `/` when the path is relative), query and
fragment.  A reference that lacks only its scheme, or only its host, inherits
just that component.  With base scheme `http` and base host `example.com`,
`/about` resolves to `http://example.com/about`. -/
theorem relative_resolution :
    (∀ (c : Crawler) (href : String) (u : url.URL), url.Parse href = some u →
      u.Scheme = "" → u.Host = "" →
      c.inherit u = { u with Scheme := c.baseURL.Scheme, Host := c.baseURL.Host } ∧
      c.resolveURL href
        = ({ u with Scheme := c.baseURL.Scheme, Host := c.baseURL.Host } : url.URL).String ∧
      ((c.baseURL.Scheme ≠ "" ∨ c.baseURL.Host ≠ "") → c.resolveURL href ≠ "") ∧
      (c.baseURL.Scheme ≠ "" → c.baseURL.Host ≠ "" →
        c.resolveURL href = c.baseURL.Scheme ++ "://" ++ u.userString
          ++ url.escape c.baseURL.Host .encodeHost
          ++ (if u.EscapedPath ≠ "" ∧ u.EscapedPath.data.head? ≠ some '/' then "/" else "")
          ++ u.EscapedPath ++ u.queryString ++ u.fragmentString)) ∧
    (∀ (c : Crawler) (u : url.URL), u.Scheme = "" → u.Host ≠ "" →
      c.inherit u = { u with Scheme := c.baseURL.Scheme }) ∧
    (∀ (c : Crawler) (u : url.URL), u.Scheme ≠ "" → u.Host = "" →
      c.inherit u = { u with Host := c.baseURL.Host }) ∧
    (∀ c : Crawler, c.baseURL.Scheme = "http" → c.baseURL.Host = "example.com" →
      c.resolveURL "/about" = "http://example.com/about") := by
  have key : ∀ (c : Crawler) (href : String) (u : url.URL), url.Parse href = some u →
      u.Scheme = "" → u.Host = "" →
      c.resolveURL href
        = ({ u with Scheme := c.baseURL.Scheme, Host := c.baseURL.Host } : url.URL).String := by
    intro c href u hp hs hh
    rw [resolveURL_of_parse c hp, inherit_both c u hs hh, if_pos]
    simp [Crawler.isSameDomain]
  refine ⟨?_, inherit_scheme, inherit_host, ?_⟩
  · intro c href u hp hs hh
    have ho : u.Opaque = "" := Parse_opaque hp hs
    let v : url.URL := { u with Scheme := c.baseURL.Scheme, Host := c.baseURL.Host }
    refine ⟨inherit_both c u hs hh, key c href u hp hs hh, ?_, ?_⟩
    · intro hne
      rw [key c href u hp hs hh]
      by_cases hbs : c.baseURL.Scheme = ""
      · have hbh : c.baseURL.Host ≠ "" := hne.resolve_left (fun h => h hbs)
        exact String_ne_empty_of_host v ho hbh
      · exact String_ne_empty_of_scheme v hbs
    · intro hbs hbh
      rw [key c href u hp hs hh, String_of_scheme_host v hbs hbh ho]
      rfl
  · intro c hbs hbh
    have p : url.Parse "/about" = some { Path := "/about" } := by decide
    rw [key c "/about" _ p rfl rfl, hbs, hbh]
    decide

/-- Witness of C5 on the crawler for `http://example.com/`: the path-relative
href `images/x.png` resolves against the site root. -/
theorem relative_resolution_witness :
    exampleCrawler.resolveURL "images/x.png" = "http://example.com/images/x.png" :=
  ((relative_resolution.1 exampleCrawler "images/x.png" { Path := "images/x.png" }
    (by decide) rfl rfl).2.1).trans (by decide)

/-- Counterexample to C5 as stated: `NewCrawler("")` succeeds, its base URL has
neither scheme nor host, and for the href `""` (no scheme, no host)
`resolveURL` returns the empty string, that is, no link. -/
theorem relative_resolution_absent :
    NewCrawler "" = some emptyCrawler ∧
    url.Parse "" = some {} ∧
    emptyCrawler.resolveURL "" = "" := by
  decide

/-- The crawl against the graph of the code: with finitely many URLs reachable
through `successors`, all of which answer OK, `Crawl` on a fresh crawler
returns with exactly these URLs visited, each requested once. -/
theorem visited_eq_reachable (get : Web) (c : Crawler) (U : List String)
    (hfresh : c.visited = [])
    (hfin : ∀ u, Reachable get c c.baseURL.String u → u ∈ U)
    (hOK : ∀ u, Reachable get c c.baseURL.String u →
      ∃ resp, get u = some resp ∧ resp.StatusCode = http.StatusOK) :
    ∃ s, Crawl get (U.length + 1) c = .returned s ∧
      (∀ u, u ∈ s.crawler.visited ↔ Reachable get c c.baseURL.String u) ∧
      (∀ u, u ∈ s.requests ↔ Reachable get c c.baseURL.String u) ∧
      s.requests.Nodup := by
  obtain ⟨s, hs⟩ := visitPage_returns hfin U.length c.baseURL.String
    { crawler := c, requests := [] } Reachable.seed rfl (unvisited_card_le U c.visited)
  have hrun := run_of_returned hs
  obtain ⟨h1, h2, h3, h4⟩ := hrun.closure hOK rfl rfl (by
    intro l hl
    rw [List.mem_singleton.1 hl]
    exact Reachable.seed)
  have hvis : ∀ u, u ∈ s.crawler.visited ↔ Reachable get c c.baseURL.String u := by
    intro u
    constructor
    · intro hu
      rcases h2 u hu with e | e
      · simp [hfresh] at e
      · exact e.1
    · intro hu
      induction hu with
      | seed => exact h1 _ (List.mem_singleton_self _)
      | @link v w _ hw ih =>
        rcases h2 v ih with e | e
        · simp [hfresh] at e
        · exact e.2 w hw
  have hreq : s.requests = s.crawler.visited.reverse := h4 (by simp [hfresh])
  refine ⟨s, hs, hvis, ?_, ?_⟩
  · intro u
    rw [hreq, List.mem_reverse]
    exact hvis u
  · rw [hreq, List.nodup_reverse]
    exact h3 (by simp [hfresh])

/-- C6 (as amended). Completeness: the links of a page are the hrefs of its `a`
start tags (the first `href` attribute of each, up to the first tokenizer
error), and a link is followed when the resolver accepts it, that is when it
parses, its host after inheritance is the base host or ends with a dot followed
by the base host, and its URL string is non-empty.  In a link graph with
finitely many URLs reachable this way, all of which answer OK, `Crawl` on a
fresh crawler returns, and on return the visited set is exactly the set of
URLs reachable from the seed; the requests made are exactly these URLs, each
requested once. -/
theorem crawl_visits_exactly_reachable (get : Web) (c : Crawler) (U : List String)
    (hfresh : c.visited = [])
    (hfin : ∀ u, Spec.Reach Spec.startTagHrefs get c.baseURL c.baseURL.String u → u ∈ U)
    (hOK : ∀ u, Spec.Reach Spec.startTagHrefs get c.baseURL c.baseURL.String u →
      ∃ resp, get u = some resp ∧ resp.StatusCode = http.StatusOK) :
    ∃ s, Crawl get (U.length + 1) c = .returned s ∧
      (∀ u, u ∈ s.crawler.visited ↔
        Spec.Reach Spec.startTagHrefs get c.baseURL c.baseURL.String u) ∧
      (∀ u, u ∈ s.requests ↔
        Spec.Reach Spec.startTagHrefs get c.baseURL c.baseURL.String u) ∧
      s.requests.Nodup := by
  obtain ⟨s, hs, hvis, hreq, hnd⟩ := visited_eq_reachable get c U hfresh
    (fun u hu => hfin u ((reachable_iff_reach get c _ u).1 hu))
    (fun u hu => hOK u ((reachable_iff_reach get c _ u).1 hu))
  exact ⟨s, hs, fun u => (hvis u).trans (reachable_iff_reach get c _ u),
    fun u => (hreq u).trans (reachable_iff_reach get c _ u), hnd⟩

theorem siteWeb_reachable (u : String)
    (h : Reachable siteWeb exampleCrawler exampleCrawler.baseURL.String u) :
    u ∈ ["http://example.com/", "http://example.com/l", "http://sub.example.com/d"] := by
  induction h with
  | seed => decide
  | @link v w _ hw ih =>
    have h1 : successors siteWeb exampleCrawler "http://example.com/"
        = ["http://example.com/l"] := by decide
    have h2 : successors siteWeb exampleCrawler "http://example.com/l"
        = ["http://example.com/", "http://sub.example.com/d"] := by decide
    have h3 : successors siteWeb exampleCrawler "http://sub.example.com/d" = [] := by decide
    simp only [List.mem_cons, List.mem_singleton, List.not_mem_nil, or_false] at ih
    rcases ih with e | e | e
    · subst e
      rw [h1] at hw
      simp only [List.mem_singleton] at hw
      subst hw
      decide
    · subst e
      rw [h2] at hw
      simp only [List.mem_cons, List.mem_singleton, List.not_mem_nil, or_false] at hw
      rcases hw with e | e <;> subst e <;> decide
    · subst e
      rw [h3] at hw
      cases hw

theorem siteWeb_ok (u : String)
    (h : Reachable siteWeb exampleCrawler exampleCrawler.baseURL.String u) :
    ∃ resp, siteWeb u = some resp ∧ resp.StatusCode = http.StatusOK := by
  have hu := siteWeb_reachable u h
  simp only [List.mem_cons, List.mem_singleton, List.not_mem_nil, or_false] at hu
  rcases hu with e | e | e <;> subst e
  · exact ⟨_, rfl, rfl⟩
  · exact ⟨{ StatusCode := 200, Body := [anchor "/", anchor "http://sub.example.com/d"] },
      by decide, rfl⟩
  · exact ⟨{ StatusCode := 200 }, by decide, rfl⟩

/-- Witness of C6 on `siteWeb`: the crawl visits the seed, `/l` and the page on
the subdomain, and these three are exactly the URLs reachable through accepted
links of `a` start tags; the other site and the self-closing anchor's `/s` are
not among them. -/
theorem crawl_visits_exactly_reachable_witness :
    Crawl siteWeb 4 exampleCrawler
      = .returned { crawler := { exampleCrawler with
                      visited := ["http://sub.example.com/d", "http://example.com/l",
                        "http://example.com/"] },
                    requests := ["http://example.com/", "http://example.com/l",
                      "http://sub.example.com/d"] } ∧
    (∀ u, Spec.Reach Spec.startTagHrefs siteWeb exampleCrawler.baseURL
        exampleCrawler.baseURL.String u ↔
      u ∈ ["http://sub.example.com/d", "http://example.com/l", "http://example.com/"]) := by
  have hc : Crawl siteWeb 4 exampleCrawler
      = .returned { crawler := { exampleCrawler with
                      visited := ["http://sub.example.com/d", "http://example.com/l",
                        "http://example.com/"] },
                    requests := ["http://example.com/", "http://example.com/l",
                      "http://sub.example.com/d"] } := by decide
  obtain ⟨s, hs, hvis, _, _⟩ := crawl_visits_exactly_reachable siteWeb exampleCrawler
    ["http://example.com/", "http://example.com/l", "http://sub.example.com/d"] rfl
    (fun u hu => siteWeb_reachable u ((reachable_iff_reach _ _ _ u).2 hu))
    (fun u hu => siteWeb_ok u ((reachable_iff_reach _ _ _ u).2 hu))
  have hs4 : Crawl siteWeb 4 exampleCrawler = .returned s := hs
  rw [hc] at hs4
  cases hs4
  exact ⟨hc, fun u => (hvis u).symm⟩

/-- Counterexample to C6 as stated: every fetch answers OK and the seed page
holds an anchor to `/s`, written self-closing; the resolver accepts `/s`, so
`http://example.com/s` is reachable through the links of fetched pages, yet the
crawl returns having visited the seed only. -/
theorem self_closing_anchor_not_followed :
    (∀ u, ∃ resp, selfClosingWeb u = some resp ∧ resp.StatusCode = http.StatusOK) ∧
    exampleCrawler.resolveURL "/s" = "http://example.com/s" ∧
    Spec.Reach Spec.parseHrefs selfClosingWeb exampleCrawler.baseURL
      exampleCrawler.baseURL.String "http://example.com/s" ∧
    Crawl selfClosingWeb 2 exampleCrawler
      = .returned { crawler := { exampleCrawler with visited := ["http://example.com/"] },
                    requests := ["http://example.com/"] } ∧
    "http://example.com/s" ∉ ["http://example.com/"] := by
  refine ⟨?_, by decide, ?_, by decide, by decide⟩
  · intro u
    unfold selfClosingWeb
    split
    · exact ⟨_, rfl, rfl⟩
    · exact ⟨_, rfl, rfl⟩
  · refine Spec.Reach.link Spec.Reach.seed ?_
    refine ⟨{ StatusCode := 200, Body := [selfClosingAnchor "/s"] }, by decide, rfl, "/s",
      by decide, by decide, { Path := "/s" }, by decide, Or.inl (by decide), by decide⟩

/-- C7 (as amended). Scope confinement: at every moment of a `Crawl` run,
finished or not, every URL requested so far other than the seed is a non-empty
result of the resolver: the string of a parsed href whose host after
inheritance is the base host or ends with a dot followed by the base host.
When that reference has a scheme, a host and no opaque part, the requested
string is `scheme://`, user information, that host, path, query and fragment.
An href with a scheme and no host keeps its opaque part and is requested as
written: from the seed page of `main`'s crawler `mailto:a@other.com`,
`http:other.com/x` and `https:evil.org/login` are all requested.  In the
end-to-end scenario the run returns, the requests are `http://example.com/`
and `http://example.com/a`, and `http://external.com/b` is never requested. -/
theorem scope_confinement :
    (∀ (get : Web) (c : Crawler) (fuel : Nat),
      ∀ u ∈ (Crawl get fuel c).state.requests, u = c.baseURL.String ∨
        (u ≠ "" ∧ ∃ href p, url.Parse href = some p ∧ c.resolveURL href = u ∧
          u = (c.inherit p).String ∧
          ((c.inherit p).Host = c.baseURL.Host ∨
            ∃ pre : String, (c.inherit p).Host = pre ++ "." ++ c.baseURL.Host) ∧
          Spec.Accepts c.baseURL href u ∧
          ((c.inherit p).Opaque = "" → (c.inherit p).Scheme ≠ "" → (c.inherit p).Host ≠ "" →
            u = (c.inherit p).Scheme ++ "://" ++ (c.inherit p).userString
              ++ url.escape (c.inherit p).Host .encodeHost
              ++ (if (c.inherit p).EscapedPath ≠ "" ∧
                    (c.inherit p).EscapedPath.data.head? ≠ some '/' then "/" else "")
              ++ (c.inherit p).EscapedPath ++ (c.inherit p).queryString
              ++ (c.inherit p).fragmentString))) ∧
    NewCrawler "http://example.com/" = some exampleCrawler ∧
    Crawl scenarioWeb 2 exampleCrawler
      = .returned { crawler := { exampleCrawler with
                      visited := ["http://example.com/a", "http://example.com/"] },
                    requests := ["http://example.com/", "http://example.com/a"] } ∧
    "http://external.com/b" ∉ (Crawl scenarioWeb 2 exampleCrawler).state.requests ∧
    NewCrawler "http://example.com" = some siteCrawler ∧
    Crawl opaqueWeb 2 siteCrawler
      = .returned { crawler := { siteCrawler with visited := ["http://example.com"] },
                    requests := ["http://example.com", "mailto:a@other.com",
                      "http:other.com/x", "https:evil.org/login"] } := by
  refine ⟨?_, by decide, by decide, by decide, by decide, by decide⟩
  intro get c fuel u hu
  have hrun := @run_of_visitPage get fuel c.baseURL.String
    { crawler := c, requests := [] }
  obtain ⟨_, new, hreq, _, _, _, hacc⟩ := hrun.frame (c := c) rfl
  have hnew : u ∈ new := by
    have : (Crawl get fuel c).state.requests = new := by simpa [Crawl] using hreq
    rw [← this]; exact hu
  rcases hacc u hnew with e | e
  · exact Or.inl (List.mem_singleton.1 e)
  · obtain ⟨hne, href, hres⟩ := e
    obtain ⟨p, hp, hd, hstr⟩ := @resolveURL_ne_empty c href (by rw [hres]; exact hne)
    have hu1 : u = (c.inherit p).String := by rw [← hres, hstr]
    refine Or.inr ⟨hne, href, p, hp, hres, hu1, (isSameDomain_iff c _).1 hd,
      (resolveURL_iff_accepts c href u).1 ⟨hres, hne⟩, ?_⟩
    intro ho hs hh
    rw [hu1]
    exact String_of_scheme_host _ hs hh ho

/-- Witness of C7 on the end-to-end scenario: the one request besides the seed
is accepted by the resolver of the specification. -/
theorem scope_confinement_witness :
    ∃ href, Spec.Accepts exampleCrawler.baseURL href "http://example.com/a" := by
  rcases scope_confinement.1 scenarioWeb exampleCrawler 2 "http://example.com/a" (by decide)
    with h | h
  · exact absurd h (by decide)
  · obtain ⟨_, href, _, _, _, _, _, hacc, _⟩ := h
    exact ⟨href, hacc⟩

/-- Counterexample to C7 as stated: `main`'s crawler requests
`http:other.com/x`, which is not the seed; the host of that URL is empty, which
is neither the base host `example.com` nor a subdomain of it. -/
theorem hostless_url_requested :
    (Crawl opaqueWeb 2 siteCrawler).state.requests
      = ["http://example.com", "mailto:a@other.com", "http:other.com/x",
          "https:evil.org/login"] ∧
    siteCrawler.baseURL.String = "http://example.com" ∧
    url.Parse "http:other.com/x" = some { Scheme := "http", Opaque := "other.com/x" } ∧
    siteCrawler.isSameDomain { Scheme := "http", Opaque := "other.com/x" } = false ∧
    ¬ (∀ u ∈ (Crawl opaqueWeb 2 siteCrawler).state.requests,
        u ≠ siteCrawler.baseURL.String →
        ∃ p, url.Parse u = some p ∧ Spec.SameDomain siteCrawler.baseURL.Host p.Host) := by
  refine ⟨by decide, by decide, by decide, by decide, ?_⟩
  intro h
  obtain ⟨p, hp, hd⟩ := h "http:other.com/x" (by decide) (by decide)
  have hp0 : url.Parse "http:other.com/x"
      = some { Scheme := "http", Opaque := "other.com/x" } := by decide
  rw [hp0] at hp
  cases hp
  have := (isSameDomain_iff siteCrawler { Scheme := "http", Opaque := "other.com/x" }).2 hd
  exact absurd this (by decide)

/-- C8. Fault isolation: when page `A` answers OK and its links hold `B` and,
later in document order, `C`, the fetch of `B` fails with a transport error and
`C` is not yet visited, then `visitPage A` returns and `C` is among the URLs it
requested; `B`, unless it was visited before, is requested too and is left
unvisited.  The error on `B` neither stops the loop over the links nor leaves
`visitPage`. -/
theorem fault_isolation (get : Web) (U : List String) (s : State) (A B C : String)
    (resp : http.Response) (pre mid post : List String)
    (hfin : ∀ u, Reachable get s.crawler A u → u ∈ U)
    (hA : A ∉ s.crawler.visited) (hgA : get A = some resp)
    (hsA : resp.StatusCode = http.StatusOK)
    (hlinks : s.crawler.extractLinks resp.Body = pre ++ B :: (mid ++ C :: post))
    (hB : get B = none) (hC : C ∉ s.crawler.visited) :
    ∃ s1 new, visitPage get (U.length + 1) A s = .returned s1 ∧
      s1.requests = s.requests ++ new ∧ C ∈ new ∧
      (B ∉ s.crawler.visited → B ∈ new ∧ B ∉ s1.crawler.visited) := by
  obtain ⟨s1, hs1⟩ := visitPage_returns hfin U.length A s Reachable.seed rfl
    (unvisited_card_le U s.crawler.visited)
  have hfold := hs1
  rw [visitPage_of_ok _ hA hgA hsA] at hfold
  have hrun := @run_of_visitLinks get (fun link acc => visitPage get U.length link acc)
    (run_of_visitPage U.length) (s.crawler.extractLinks resp.Body) ((s.request A).mark A)
  rw [hfold] at hrun
  obtain ⟨_, new, hreq, _, hl, hnew, _⟩ := hrun.frame (c := s.crawler) rfl
  have hAB : B ≠ A := by
    intro e
    rw [e, hgA] at hB
    cases hB
  have requested : ∀ l, l ∈ s.crawler.extractLinks resp.Body → l ∉ s.crawler.visited →
      l ∈ A :: new := by
    intro l hin hnot
    rcases hl rfl l hin with e | e
    · rcases List.mem_cons.1 (by simpa using e) with f | f
      · rw [f]; exact List.mem_cons_self _ _
      · exact absurd f hnot
    · exact List.mem_cons_of_mem _ e
  refine ⟨s1, A :: new, hs1, by simpa using hreq, ?_, ?_⟩
  · exact requested C (by rw [hlinks]; simp) hC
  · intro hBv
    refine ⟨requested B (by rw [hlinks]; simp) hBv, ?_⟩
    intro hin
    rcases hnew B hin with e | e
    · rcases List.mem_cons.1 (by simpa using e) with f | f
      · exact hAB f
      · exact hBv f
    · exact e.2 hB

theorem faultWeb_reachable (u : String)
    (h : Reachable faultWeb exampleCrawler "http://example.com/" u) :
    u ∈ ["http://example.com/", "http://example.com/b", "http://example.com/c"] := by
  induction h with
  | seed => decide
  | @link v w _ hw ih =>
    have h1 : successors faultWeb exampleCrawler "http://example.com/"
        = ["http://example.com/b", "http://example.com/c"] := by decide
    have h2 : successors faultWeb exampleCrawler "http://example.com/b" = [] := by decide
    have h3 : successors faultWeb exampleCrawler "http://example.com/c" = [] := by decide
    simp only [List.mem_cons, List.mem_singleton, List.not_mem_nil, or_false] at ih
    rcases ih with e | e | e
    · subst e
      rw [h1] at hw
      simp only [List.mem_cons, List.mem_singleton, List.not_mem_nil, or_false] at hw
      rcases hw with e | e <;> subst e <;> decide
    · subst e
      rw [h2] at hw
      cases hw
    · subst e
      rw [h3] at hw
      cases hw

/-- Witness of C8: the seed page links to `/b`, whose fetch fails, and then to
`/c`. -/
theorem fault_isolation_witness :
    ∃ s1 new, visitPage faultWeb 4 "http://example.com/" { crawler := exampleCrawler }
        = .returned s1 ∧
      s1.requests = [] ++ new ∧ "http://example.com/c" ∈ new ∧
      ("http://example.com/b" ∉ exampleCrawler.visited →
        "http://example.com/b" ∈ new ∧ "http://example.com/b" ∉ s1.crawler.visited) :=
  fault_isolation faultWeb
    ["http://example.com/", "http://example.com/b", "http://example.com/c"]
    { crawler := exampleCrawler } "http://example.com/" "http://example.com/b"
    "http://example.com/c" { StatusCode := 200, Body := [anchor "/b", anchor "/c"] }
    [] [] [] faultWeb_reachable (by decide) (by decide) rfl (by decide) (by decide) (by decide)

/-- C9. Non-OK status: for an unvisited URL whose fetch returns a response
with any status other than 200, `visitPage` returns after one request, with
the URL added to the visited set and nothing else changed: the body is not
parsed and no further page is requested. -/
theorem non_ok_status (get : Web) (fuel : Nat) (url : String) (s : State)
    (resp : http.Response) (hv : url ∉ s.crawler.visited) (hg : get url = some resp)
    (hs : resp.StatusCode ≠ http.StatusOK) :
    visitPage get (fuel + 1) url s
      = .returned { crawler := { s.crawler with visited := url :: s.crawler.visited },
                    requests := s.requests ++ [url] } ∧
    (∀ v, v ≠ url → (v ∈ url :: s.crawler.visited ↔ v ∈ s.crawler.visited)) := by
  constructor
  · have hc : s.crawler.visited.contains url = false := contains_false_iff.2 hv
    simp only [visitPage, hc, hg]
    simp [hs, State.request, State.mark]
  · intro v hne
    simp [hne]

/-- Witness of C9: a page answering 204 (a 2xx status other than OK) whose body
holds a link. -/
theorem non_ok_status_witness :
    visitPage noContentWeb 1 "http://example.com/" { crawler := exampleCrawler }
      = .returned { crawler := { exampleCrawler with visited := ["http://example.com/"] },
                    requests := ["http://example.com/"] } :=
  (non_ok_status noContentWeb 0 "http://example.com/" { crawler := exampleCrawler }
    { StatusCode := 204, Body := [anchor "/a"] } (by decide) (by decide) (by decide)).1

/-- C10 (as amended). Host-less hrefs are always in scope: for an href that
parses to a reference with an empty host, `resolveURL` sets the host to the
base host, the same-domain check passes, and when the base scheme is non-empty
the result is a non-empty string that `extractLinks` lists.  For the crawler of
`main` this holds for `mailto:a@other.com`, `javascript:void(0)` and the empty
href; the empty href resolves to the string of the base scheme and host alone,
which for `main` is `http://example.com`. -/
theorem hostless_href_in_scope :
    (∀ (c : Crawler) (href : String) (u : url.URL), url.Parse href = some u → u.Host = "" →
      (c.inherit u).Host = c.baseURL.Host ∧
      c.isSameDomain (c.inherit u) = true ∧
      c.resolveURL href = (c.inherit u).String ∧
      (c.baseURL.Scheme ≠ "" →
        c.resolveURL href ≠ "" ∧ c.extractLinks [anchor href] = [c.resolveURL href])) ∧
    (∀ c : Crawler, c.resolveURL ""
      = ({ Scheme := c.baseURL.Scheme, Host := c.baseURL.Host } : url.URL).String) ∧
    mainCrawler = some siteCrawler ∧
    siteCrawler.resolveURL "mailto:a@other.com" = "mailto:a@other.com" ∧
    siteCrawler.resolveURL "javascript:void(0)" = "javascript:void(0)" ∧
    siteCrawler.resolveURL "" = "http://example.com" ∧
    siteCrawler.extractLinks [anchor "mailto:a@other.com", anchor "javascript:void(0)", anchor ""]
      = ["mailto:a@other.com", "javascript:void(0)", "http://example.com"] := by
  refine ⟨?_, ?_, by decide, by decide, by decide, by decide, by decide⟩
  · intro c href u hp hh
    have hhost := inherit_host_of_empty c u hh
    have hdom : c.isSameDomain (c.inherit u) = true := by
      simp [Crawler.isSameDomain, hhost]
    have hres : c.resolveURL href = (c.inherit u).String := by
      rw [resolveURL_of_parse c hp, if_pos hdom]
    refine ⟨hhost, hdom, hres, ?_⟩
    intro hbs
    have hsch : (c.inherit u).Scheme ≠ "" := by
      by_cases hs : u.Scheme = ""
      · rw [inherit_both c u hs hh]; exact hbs
      · rw [inherit_host c u hs hh]; exact hs
    have hne : c.resolveURL href ≠ "" := by
      rw [hres]; exact String_ne_empty_of_scheme _ hsch
    exact ⟨hne, extractLinks_anchor c href hne⟩
  · intro c
    have p : url.Parse "" = some {} := by decide
    rw [resolveURL_of_parse c p, inherit_both c _ rfl rfl, if_pos]
    simp [Crawler.isSameDomain]

/-- Witness of C10 on the crawler for `http://example.com/`: a `tel:` href has
no host and is handed out as a link. -/
theorem hostless_href_in_scope_witness :
    exampleCrawler.resolveURL "tel:+15550100" ≠ "" ∧
    exampleCrawler.extractLinks [anchor "tel:+15550100"]
      = [exampleCrawler.resolveURL "tel:+15550100"] :=
  (hostless_href_in_scope.1 exampleCrawler "tel:+15550100"
    { Scheme := "tel", Opaque := "+15550100" } (by decide) rfl).2.2.2 (by decide)

/-- Counterexample to C10 as stated: for the seed
`http://example.com/docs/index.html` the empty href resolves to
`http://example.com`, which is not the base URL. -/
theorem empty_href_not_base :
    NewCrawler "http://example.com/docs/index.html" = some docsCrawler ∧
    docsCrawler.baseURL.String = "http://example.com/docs/index.html" ∧
    docsCrawler.resolveURL "" = "http://example.com" ∧
    docsCrawler.resolveURL "" ≠ docsCrawler.baseURL.String := by
  decide

end WebCrawler
